import Mathlib

/-!
Verification development for the traefik-modifier middleware plugin.

The Go sources are shallowly embedded: strings/`[]byte` become Lean strings
(all data in scope is UTF-8; byte lengths use `String.utf8ByteSize`, the
length Go's `len` reports on UTF-8 data), Go maps become association lists,
fallible operations return `Option`, and the `text/template` engine — an
external library the plugin calls — is abstracted as an `Engine` record of
its `Parse`/`Execute` behaviour.  Template-compile operations performed by
the plugin are additionally recorded in an explicit trace so that
configuration-time versus per-request compilation is observable.
-/

namespace TraefikModifier

/-! ## Go `encoding/json`: decoding into a generic value, and `Marshal` -/

/-- Whitespace characters `encoding/json` skips between tokens. -/
def jsonSpace (c : Char) : Bool :=
  c == ' ' || c == '\t' || c == '\n' || c == '\r'

/-- Model of a JSON value as produced by Go `json.Unmarshal` into an
`interface` value.  Numbers are kept exactly as a decimal
mantissa/power-of-ten pair instead of as IEEE floats; every concrete number
in this development is a small integer, on which the two representations and
their re-rendering agree.  Objects model Go maps: during decoding a duplicate
key overwrites the earlier one, so `obj` field lists have unique keys. -/
inductive Json where
  | null
  | bool (b : Bool)
  | num (mant : Int) (exp10 : Int)
  | str (s : String)
  | arr (items : List Json)
  | obj (fields : List (String × Json))

/-- Drop leading JSON whitespace. -/
def skipJsonSpace : List Char → List Char
  | [] => []
  | c :: rest => if jsonSpace c then skipJsonSpace rest else c :: rest

/-- Split off a maximal run of decimal digits. -/
def spanDigits : List Char → List Char × List Char
  | [] => ([], [])
  | c :: rest =>
    if c.isDigit then
      let (ds, r) := spanDigits rest
      (c :: ds, r)
    else ([], c :: rest)

/-- Numeric value of a digit run. -/
def digitsVal (ds : List Char) : Int :=
  ((ds.foldl (fun a c => a * 10 + (c.toNat - 48)) 0 : Nat) : Int)

/-- Value of one hexadecimal digit, if it is one. -/
def hexDigitVal (c : Char) : Option Nat :=
  if c.isDigit then some (c.toNat - 48)
  else if 'a' ≤ c && c ≤ 'f' then some (c.toNat - 97 + 10)
  else if 'A' ≤ c && c ≤ 'F' then some (c.toNat - 65 + 10)
  else none

/-- Read the remainder of a JSON string literal (the opening quote already
consumed), handling the escape sequences `encoding/json` accepts and
rejecting unescaped control characters, as Go does. -/
def readJsonString (fuel : Nat) (acc : List Char) (cs : List Char) :
    Option (String × List Char) :=
  match fuel with
  | 0 => none
  | fuel + 1 =>
    match cs with
    | [] => none
    | c :: rest =>
      if c == '"' then some (String.mk acc.reverse, rest)
      else if c == '\\' then
        match rest with
        | [] => none
        | e :: r2 =>
          if e == 'u' then
            match r2 with
            | a :: b :: c3 :: d :: r3 =>
              match hexDigitVal a, hexDigitVal b, hexDigitVal c3, hexDigitVal d with
              | some va, some vb, some vc, some vd =>
                readJsonString fuel (Char.ofNat (((va * 16 + vb) * 16 + vc) * 16 + vd) :: acc) r3
              | _, _, _, _ => none
            | _ => none
          else if e == '"' then readJsonString fuel ('"' :: acc) r2
          else if e == '\\' then readJsonString fuel ('\\' :: acc) r2
          else if e == '/' then readJsonString fuel ('/' :: acc) r2
          else if e == 'n' then readJsonString fuel ('\n' :: acc) r2
          else if e == 't' then readJsonString fuel ('\t' :: acc) r2
          else if e == 'r' then readJsonString fuel ('\r' :: acc) r2
          else if e == 'b' then readJsonString fuel (Char.ofNat 8 :: acc) r2
          else if e == 'f' then readJsonString fuel (Char.ofNat 12 :: acc) r2
          else none
      else if c.toNat < 32 then none
      else readJsonString fuel (c :: acc) rest

/-- Read a JSON number (Go grammar: optional minus, integer part with no
leading zeros, optional fraction, optional exponent). -/
def readJsonNumber (cs : List Char) : Option ((Int × Int) × List Char) :=
  let (neg, cs1) : Bool × List Char :=
    match cs with
    | '-' :: r => (true, r)
    | _ => (false, cs)
  let (ip, cs2) := spanDigits cs1
  match ip with
  | [] => none
  | d0 :: drest =>
    if d0 == '0' && drest ≠ [] then none
    else
      let fracStep : Option (List Char × List Char) :=
        match cs2 with
        | '.' :: r =>
          match spanDigits r with
          | ([], _) => none
          | (fs, r2) => some (fs, r2)
        | _ => some ([], cs2)
      match fracStep with
      | none => none
      | some (fp, cs3) =>
        let expStep : Option (Int × List Char) :=
          match cs3 with
          | 'e' :: r | 'E' :: r =>
            let (sgn, r1) : Int × List Char :=
              match r with
              | '+' :: r2 => (1, r2)
              | '-' :: r2 => (-1, r2)
              | _ => (1, r)
            match spanDigits r1 with
            | ([], _) => none
            | (es, r2) => some (sgn * digitsVal es, r2)
          | _ => some (0, cs3)
        match expStep with
        | none => none
        | some (ev, cs4) =>
          let m := (if neg then (-1 : Int) else 1) * digitsVal (ip ++ fp)
          some ((m, ev - (fp.length : Int)), cs4)

/-- Overwrite-or-append one decoded object member, modelling Go map
assignment while decoding (a later duplicate key wins). -/
def objUpsert (fs : List (String × Json)) (k : String) (v : Json) :
    List (String × Json) :=
  if fs.any (fun p => p.1 == k) then
    fs.map (fun p => if p.1 == k then (k, v) else p)
  else fs ++ [(k, v)]

/-- Collapse a member list read in document order into Go-map form. -/
def collapseFields (fs : List (String × Json)) : List (String × Json) :=
  fs.foldl (fun acc p => objUpsert acc p.1 p.2) []

mutual

/-- Read one JSON value.  Fuel-driven so totality is structural; callers
supply fuel exceeding the input length, which the grammar cannot exhaust. -/
def jsonVal (fuel : Nat) (cs : List Char) : Option (Json × List Char) :=
  match fuel with
  | 0 => none
  | fuel + 1 =>
    match skipJsonSpace cs with
    | 'n' :: 'u' :: 'l' :: 'l' :: r => some (.null, r)
    | 't' :: 'r' :: 'u' :: 'e' :: r => some (.bool true, r)
    | 'f' :: 'a' :: 'l' :: 's' :: 'e' :: r => some (.bool false, r)
    | '"' :: r =>
      match readJsonString (r.length + 1) [] r with
      | some (s, r2) => some (.str s, r2)
      | none => none
    | '[' :: r =>
      match skipJsonSpace r with
      | ']' :: r2 => some (.arr [], r2)
      | r2 =>
        match jsonItems fuel r2 with
        | some (xs, r3) => some (.arr xs, r3)
        | none => none
    | '\x7b' :: r =>
      match skipJsonSpace r with
      | '\x7d' :: r2 => some (.obj [], r2)
      | r2 =>
        match jsonMembers fuel r2 with
        | some (ms, r3) => some (.obj (collapseFields ms), r3)
        | none => none
    | c :: r =>
      if c == '-' || c.isDigit then
        match readJsonNumber (c :: r) with
        | some ((m, e), r2) => some (.num m e, r2)
        | none => none
      else none
    | [] => none

/-- Read one-or-more comma-separated array items up to the closing bracket. -/
def jsonItems (fuel : Nat) (cs : List Char) : Option (List Json × List Char) :=
  match fuel with
  | 0 => none
  | fuel + 1 =>
    match jsonVal fuel cs with
    | none => none
    | some (v, r) =>
      match skipJsonSpace r with
      | ',' :: r2 =>
        match jsonItems fuel r2 with
        | some (vs, r3) => some (v :: vs, r3)
        | none => none
      | ']' :: r2 => some ([v], r2)
      | _ => none

/-- Read one-or-more comma-separated object members up to the closing brace. -/
def jsonMembers (fuel : Nat) (cs : List Char) :
    Option (List (String × Json) × List Char) :=
  match fuel with
  | 0 => none
  | fuel + 1 =>
    match skipJsonSpace cs with
    | '"' :: r =>
      match readJsonString (r.length + 1) [] r with
      | none => none
      | some (k, r1) =>
        match skipJsonSpace r1 with
        | ':' :: r2 =>
          match jsonVal fuel r2 with
          | none => none
          | some (v, r3) =>
            match skipJsonSpace r3 with
            | ',' :: r4 =>
              match jsonMembers fuel r4 with
              | some (ms, r5) => some ((k, v) :: ms, r5)
              | none => none
            | '\x7d' :: r4 => some ([(k, v)], r4)
            | _ => none
        | _ => none
    | _ => none

end

/-- Model of `json.Unmarshal(data, any)`: `some` on exactly the documents Go
accepts (one value, then only trailing whitespace); `none` is Go's error. -/
def jsonParse (s : String) : Option Json :=
  let cs := s.toList
  match jsonVal (2 * cs.length + 4) cs with
  | none => none
  | some (j, rest) => if (skipJsonSpace rest).isEmpty then some j else none

/-- Two lowercase hex digits for a byte value, as Go emits in `\u00XX`. -/
def hexByte (n : Nat) : String :=
  let dig := fun (k : Nat) => if k < 10 then Char.ofNat (48 + k) else Char.ofNat (97 + k - 10)
  String.mk [dig (n / 16 % 16), dig (n % 16)]

/-- String-content escaping of `json.Marshal` (HTML escaping on, its
default): quote, backslash, the three HTML-significant characters, newline,
carriage return, tab, other control bytes as `\u00XX`. -/
def jsonEscapeChar (c : Char) : String :=
  if c == '"' then "\\\""
  else if c == '\\' then "\\\\"
  else if c == '<' then "\\u003c"
  else if c == '>' then "\\u003e"
  else if c == '&' then "\\u0026"
  else if c == '\n' then "\\n"
  else if c == '\r' then "\\r"
  else if c == '\t' then "\\t"
  else if c.toNat < 32 then "\\u00" ++ hexByte c.toNat
  else if c.toNat = 8232 then "\\u2028"
  else if c.toNat = 8233 then "\\u2029"
  else String.singleton c

/-- Lexicographic (code-point, hence UTF-8 byte) order on character lists;
the order `sort.Strings` uses inside `json.Marshal` for map keys. -/
def charListLe : List Char → List Char → Bool
  | [], _ => true
  | _ :: _, [] => false
  | a :: as, b :: bs => if a == b then charListLe as bs else decide (a < b)

/-- Byte order on strings, as compared by `sort.Strings`. -/
def strLe (a b : String) : Bool :=
  charListLe a.toList b.toList

/-- Insert one keyed entry into a key-sorted association list. -/
def insertByKey {α : Type} (p : String × α) :
    List (String × α) → List (String × α)
  | [] => [p]
  | q :: t => if strLe p.1 q.1 then p :: q :: t else q :: insertByKey p t

/-- Insertion sort of an association list by key (stable for equal keys),
modelling `sort.Strings` over Go map keys. -/
def sortByKey {α : Type} (fs : List (String × α)) : List (String × α) :=
  fs.foldr insertByKey []

mutual

/-- Model of `json.Marshal` on a decoded generic value, minified: no
whitespace, map keys sorted, strings escaped as Go does.  Integer numbers
(power-of-ten zero) render as plain decimals exactly as Go renders the
corresponding floats; non-integer numbers (unused by any theorem or witness
below) are approximated in exponent notation. -/
def jsonMarshal : Json → String
  | .null => "null"
  | .bool true => "true"
  | .bool false => "false"
  | .num m e => if e = 0 then toString m else toString m ++ "e" ++ toString e
  | .str s => "\"" ++ String.join (s.toList.map jsonEscapeChar) ++ "\""
  | .arr xs => "[" ++ String.intercalate "," (marshalItems xs) ++ "]"
  | .obj fs =>
    "\x7b" ++
      String.intercalate ","
        ((sortByKey (marshalFields fs)).map
          (fun q => "\"" ++ String.join (q.1.toList.map jsonEscapeChar) ++ "\":" ++ q.2)) ++
      "\x7d"

/-- Render each array item. -/
def marshalItems : List Json → List String
  | [] => []
  | x :: xs => jsonMarshal x :: marshalItems xs

/-- Render each member value, keeping its key: fields are rendered in list
order and then sorted by key, which agrees with Go's sort-then-render since
rendering one member is independent of the others. -/
def marshalFields : List (String × Json) → List (String × String)
  | [] => []
  | (k, v) :: fs => (k, jsonMarshal v) :: marshalFields fs

end

/-! ## Go string helpers used by the plugin -/

/-- Core of `strings.ReplaceAll`: leftmost-first, non-overlapping, the
replaced region is not rescanned.  The pattern is passed head/tail so it is
never empty here; the fuel (always called exceeding the input length, which
one step per character cannot exhaust) keeps the recursion structural. -/
def replaceAllChars (p : Char) (ps : List Char) (rep : List Char) :
    Nat → List Char → List Char
  | 0, l => l
  | _ + 1, [] => []
  | fuel + 1, c :: cs =>
    if (p :: ps).isPrefixOf (c :: cs) then
      rep ++ replaceAllChars p ps rep fuel (cs.drop ps.length)
    else
      c :: replaceAllChars p ps rep fuel cs

/-- Model of Go `strings.ReplaceAll` / `bytes.ReplaceAll` (replace count -1):
an empty pattern inserts the replacement around every character, as in Go;
otherwise occurrences are replaced left to right without rescanning. -/
def goReplaceAll (s pat rep : String) : String :=
  match pat.toList with
  | [] => rep ++ String.join (s.toList.map (fun c => String.singleton c ++ rep))
  | p :: ps => String.mk (replaceAllChars p ps rep.toList (s.toList.length + 1) s.toList)

/-- Whitespace per Go `unicode.IsSpace`, restricted to its Latin-1 range
(the only characters template output in scope can produce). -/
def goIsSpace (c : Char) : Bool :=
  c == ' ' || c == '\t' || c == '\n' || c.toNat = 11 || c.toNat = 12 ||
  c == '\r' || c.toNat = 133 || c.toNat = 160

/-- Model of Go `strings.TrimSpace`. -/
def goTrimSpace (s : String) : String :=
  String.mk (((s.toList.dropWhile goIsSpace).reverse.dropWhile goIsSpace).reverse)

/-- Substring test by scanning every start position, mirroring the plugin's
own `contains` helper (header.go). -/
def containsSub : List Char → List Char → Bool
  | [], sub => sub.isEmpty
  | c :: cs, sub => sub.isPrefixOf (c :: cs) || containsSub cs sub

/-- The plugin's `contains(s, substr)` helper. -/
def containsStr (s substr : String) : Bool :=
  containsSub s.toList substr.toList

/-- The plugin's `containsTemplate` helper: both delimiters occur. -/
def containsTemplate (s : String) : Bool :=
  containsStr s "[[" && containsStr s "]]"

/-- ASCII simple case folding on code points (the range relevant to header
names; Go folds the wider Unicode tables, which agree here). -/
def foldN (n : Nat) : Nat :=
  if 65 ≤ n ∧ n ≤ 90 then n + 32 else n

/-- Model of Go `strings.EqualFold` on ASCII data. -/
def equalFold (a b : String) : Bool :=
  a.toList.map (fun c => foldN c.toNat) == b.toList.map (fun c => foldN c.toNat)

/-- Go `strings.ToLower` on ASCII data. -/
def asciiLower (s : String) : String :=
  String.mk (s.toList.map (fun c => Char.ofNat (foldN c.toNat)))

/-! ## `net/textproto` header-key canonicalization and `http.Header` -/

/-- Membership of a code point in Go `textproto`'s token-byte table
(`validHeaderFieldByte`): digits, letters, and the listed symbols. -/
def validTokenNat (n : Nat) : Bool :=
  decide ((48 ≤ n ∧ n ≤ 57) ∨ (65 ≤ n ∧ n ≤ 90) ∨ (97 ≤ n ∧ n ≤ 122) ∨
    n = 33 ∨ n = 35 ∨ n = 36 ∨ n = 37 ∨ n = 38 ∨ n = 39 ∨ n = 42 ∨ n = 43 ∨
    n = 45 ∨ n = 46 ∨ n = 94 ∨ n = 95 ∨ n = 96 ∨ n = 124 ∨ n = 126)

/-- One step of canonicalization: uppercase a letter at the start or after a
hyphen, lowercase it elsewhere (45 is the hyphen, 32 the case offset). -/
def canonStep : Bool → Nat → Nat
  | true, n => if 97 ≤ n ∧ n ≤ 122 then n - 32 else n
  | false, n => if 65 ≤ n ∧ n ≤ 90 then n + 32 else n

/-- Canonicalize a code-point sequence, tracking the next-is-word-start flag
exactly as `textproto`'s loop does (the flag follows the adjusted byte). -/
def canonNats (upper : Bool) : List Nat → List Nat
  | [] => []
  | n :: rest =>
    let n2 := canonStep upper n
    n2 :: canonNats (n2 == 45) rest

/-- Model of `textproto.CanonicalMIMEHeaderKey`: keys containing a non-token
byte are returned unchanged, otherwise hyphen-separated words are
capitalized. -/
def canonicalMIMEHeaderKey (s : String) : String :=
  if (s.toList.map Char.toNat).all validTokenNat then
    String.mk ((canonNats true (s.toList.map Char.toNat)).map Char.ofNat)
  else s

/-- Replace-or-append on an association list, modelling assignment into a
Go map (keys stay unique when they started unique). -/
def alistSet {α : Type} (l : List (String × α)) (k : String) (v : α) :
    List (String × α) :=
  if l.any (fun p => p.1 == k) then
    l.map (fun p => if p.1 == k then (k, v) else p)
  else l ++ [(k, v)]

/-- Go `http.Header`: a map from canonical key to the list of values, as an
association list with unique keys. -/
abbrev Header := List (String × List String)

/-- Model of `http.Header.Set`: the canonical key maps to the one value. -/
def Header.set (h : Header) (k v : String) : Header :=
  alistSet h (canonicalMIMEHeaderKey k) [v]

/-- Model of `http.Header.Add`: append to the canonical key's values. -/
def Header.add (h : Header) (k v : String) : Header :=
  let ck := canonicalMIMEHeaderKey k
  alistSet h ck ((List.lookup ck h).getD [] ++ [v])

/-- Model of `http.Header.Get`: first value under the canonical key, or
the empty string. -/
def Header.get (h : Header) (k : String) : String :=
  match List.lookup (canonicalMIMEHeaderKey k) h with
  | some (v :: _) => v
  | _ => ""

/-- Model of `http.Header.Del`. -/
def Header.del (h : Header) (k : String) : Header :=
  let ck := canonicalMIMEHeaderKey k
  h.filter (fun p => !(p.1 == ck))

/-! ## `net/url`: query escaping, parsing, and `url.Values` -/

/-- Two uppercase hex digits, as `url.QueryEscape` emits. -/
def upperHexByte (n : Nat) : String :=
  let dig := fun (k : Nat) => if k < 10 then Char.ofNat (48 + k) else Char.ofNat (65 + k - 10)
  String.mk [dig (n / 16 % 16), dig (n % 16)]

/-- Model of Go `url.QueryEscape` on ASCII data: unreserved characters pass,
space becomes a plus, everything else is percent-encoded. -/
def queryEscape (s : String) : String :=
  String.join (s.toList.map (fun c =>
    if c.isAlphanum || c == '-' || c == '_' || c == '.' || c == '~' then
      String.singleton c
    else if c == ' ' then "+"
    else "%" ++ upperHexByte c.toNat))

/-- Percent/plus decoding of Go `url.QueryUnescape`; `none` on a malformed
percent escape, as Go errors. -/
def queryUnescapeChars : List Char → Option (List Char)
  | [] => some []
  | '%' :: rest =>
    match rest with
    | a :: b :: r2 =>
      match hexDigitVal a, hexDigitVal b with
      | some va, some vb => (queryUnescapeChars r2).map (fun t => Char.ofNat (va * 16 + vb) :: t)
      | _, _ => none
    | _ => none
  | '+' :: rest => (queryUnescapeChars rest).map (fun t => ' ' :: t)
  | c :: rest => (queryUnescapeChars rest).map (fun t => c :: t)

/-- Split a character list on a separator (classic split; empty segments
are preserved and skipped by the query parser, as in Go). -/
def splitChar (sep : Char) (cs : List Char) : List (List Char) :=
  cs.foldr (fun c acc =>
    match acc with
    | [] => if c == sep then [[], []] else [[c]]
    | s :: rest => if c == sep then [] :: s :: rest else (c :: s) :: rest) [[]]

/-- Split at the first occurrence of a character (Go `strings.Cut`; when
absent the right part is empty). -/
def cutAtChar (sep : Char) : List Char → List Char × List Char
  | [] => ([], [])
  | c :: cs =>
    if c == sep then ([], cs)
    else
      let (a, b) := cutAtChar sep cs
      (c :: a, b)

/-- Go `url.Values`: a map from key to the list of values, as an
association list with unique keys in first-appearance order (Go's map has
no order; `Encode` sorts, and lookups are by key). -/
abbrev Values := List (String × List String)

/-- Presence test, `url.Values` map membership. -/
def Values.has (v : Values) (k : String) : Bool :=
  v.any (fun p => p.1 == k)

/-- Model of `url.Values.Set`: the key maps to exactly the one value. -/
def Values.set (v : Values) (k val : String) : Values :=
  alistSet v k [val]

/-- Model of `url.Values.Add`: append to the key's values. -/
def Values.add (v : Values) (k val : String) : Values :=
  alistSet v k ((List.lookup k v).getD [] ++ [val])

/-- Model of `url.Values.Encode`: keys sorted, each value escaped as
`key=value`, joined by ampersands. -/
def Values.encode (v : Values) : String :=
  String.intercalate "&"
    (List.flatten ((sortByKey v).map (fun p =>
      p.2.map (fun w => queryEscape p.1 ++ "=" ++ queryEscape w))))

/-- Model of `url.ParseQuery` with errors discarded, which is what
`req.URL.Query()` does: split on ampersands, skip empty segments, error
(and skip) segments containing a semicolon or a bad escape, cut each
segment at the first equals sign, decode both halves, append. -/
def parseQuery (s : String) : Values :=
  (splitChar '&' s.toList).foldl (fun m seg =>
    if seg.isEmpty then m
    else if seg.contains ';' then m
    else
      let (k, v) := cutAtChar '=' seg
      match queryUnescapeChars k, queryUnescapeChars v with
      | some kd, some vd => Values.add m (String.mk kd) (String.mk vd)
      | _, _ => m) []

/-! ## Requests, URLs, and response sinks -/

/-- The parts of `url.URL` this middleware reads or writes.  `path` stands
for the escaped path (`EscapedPath`); paths in scope contain no
escape-requiring characters. -/
structure URL where
  path : String
  rawQuery : String
deriving DecidableEq

/-- Model of `url.URL.RequestURI` for the URLs in scope (no opaque part,
no forced query). -/
def URL.requestURI (u : URL) : String :=
  let p := if u.path = "" then "/" else u.path
  if u.rawQuery = "" then p else p ++ "?" ++ u.rawQuery

/-- Model of `url.URL.String()` for the server-side relative URLs in scope
(no scheme, host, user, or fragment). -/
def URL.toStr (u : URL) : String :=
  if u.rawQuery = "" then u.path else u.path ++ "?" ++ u.rawQuery

/-- The parts of `http.Request` this middleware reads or writes.  The body
stream is modelled as its full contents (`none` is a nil body). -/
structure Request where
  method : String
  url : URL
  requestURI : String
  header : Header
  contentLength : Int
  body : Option String
deriving DecidableEq

/-! ## The `text/template` engine, abstracted

The plugin delegates template parsing and execution to Go's `text/template`.
That library is outside this repository, so it is embedded abstractly: a
`CompiledTemplate` records everything the plugin hands the library (name,
source, delimiters, and which helper functions were attached via `Funcs`),
and an `Engine` supplies the library's parse/execute behaviour.  Theorems
quantify over engines, and witnesses instantiate concrete ones. -/

/-- Names of the helper functions in `pkg.SimpleFuncMap` (simplefunc.go);
their implementations live inside the engine. -/
def SimpleFuncMap : List String :=
  ["toJSON", "toMap", "default", "now", "unixEpoch", "randAlphaNum",
   "upper", "date", "debug"]

/-- Everything the plugin passes to `template.New(name).Funcs(...)
.Delims(l, r).Parse(src)`. -/
structure CompiledTemplate where
  name : String
  src : String
  delimL : String
  delimR : String
  funcs : List String
deriving DecidableEq

/-- Per-request data values handed to a template: a decoded JSON payload, a
raw string, an integer (timestamps), a string list (multi-valued
query/header entries), nested string-keyed records, or a Go nil
`interface` value. -/
inductive TVal where
  | vnil
  | vjson (j : Json)
  | vstr (s : String)
  | vint (n : Int)
  | vlist (ss : List String)
  | vobj (fs : List (String × TVal))

/-- The per-request context bag (`TemplateContext`). -/
abbrev TemplateContext := List (String × TVal)

/-- Abstract behaviour of the `text/template` library: whether `Parse`
succeeds on a template, and what `Execute` produces on given data (`none`
is an execution error). -/
structure Engine where
  parseOk : CompiledTemplate → Bool
  exec : CompiledTemplate → TVal → Option String

/-- An engine whose templates all compile and all render the fixed text;
used to instantiate theorems at concrete inputs. -/
def constEngine (out : String) : Engine :=
  ⟨fun _ => true, fun _ _ => some out⟩

/-- An engine on which every `Parse` fails. -/
def noParseEngine : Engine :=
  ⟨fun _ => false, fun _ _ => none⟩

/-! ## query.go: `QueryModifier` -/

/-- `queryParamsToMap`: one value stays a string, several stay a list. -/
def queryParamsToMap (v : Values) : List (String × TVal) :=
  v.foldl (fun acc p =>
    match p.2 with
    | [w] => alistSet acc p.1 (TVal.vstr w)
    | ws => alistSet acc p.1 (TVal.vlist ws)) []

/-- `headerToMap`: same shape over the header map. -/
def headerToMap (h : Header) : List (String × TVal) :=
  h.foldl (fun acc p =>
    match p.2 with
    | [w] => alistSet acc p.1 (TVal.vstr w)
    | ws => alistSet acc p.1 (TVal.vlist ws)) []

/-- `QueryModifier` holds the raw transform strings; they are parsed again
on every request inside `ModifyQueryWithContext`. -/
structure QueryModifier where
  transforms : List (String × String)

/-- `NewQueryModifier`. -/
def NewQueryModifier (transforms : List (String × String)) : QueryModifier :=
  ⟨transforms⟩

/-- Result of the query stage: the updated request, the returned error, and
the template-compile operations the call performed. -/
structure QueryOutcome where
  req : Request
  err : Option String
  parses : List CompiledTemplate

/-- One iteration of the transform loop in `ModifyQueryWithContext`: parse
the template (on failure log and skip), execute it (on failure log and
skip), strip every bare `<no value>` from the rendered text, and if the
result is non-empty Set the key when present else Add it. -/
def queryTransformStep (E : Engine) (td : TVal)
    (acc : Values × List CompiledTemplate) (p : String × String) :
    Values × List CompiledTemplate :=
  let (vs, tr) := acc
  let tmpl : CompiledTemplate := ⟨"query", p.2, "[[", "]]", SimpleFuncMap⟩
  let tr := tr ++ [tmpl]
  if !(E.parseOk tmpl) then (vs, tr)
  else
    match E.exec tmpl td with
    | none => (vs, tr)
    | some rendered =>
      let result := goReplaceAll rendered "<no value>" ""
      if result ≠ "" then
        (if Values.has vs p.1 then Values.set vs p.1 result
         else Values.add vs p.1 result, tr)
      else (vs, tr)

/-- `ModifyQueryWithContext` (query.go): transform the query parameters and
re-encode them into the URL and request URI.  Always returns a nil error. -/
def ModifyQueryWithContext (E : Engine) (qm : QueryModifier) (req : Request)
    (ctx : Option TemplateContext) : QueryOutcome :=
  if qm.transforms = [] then ⟨req, none, []⟩
  else
    let values := parseQuery req.url.rawQuery
    let tdFields := [("request", TVal.vobj [
        ("query", TVal.vobj (queryParamsToMap values)),
        ("header", TVal.vobj (headerToMap req.header)),
        ("method", TVal.vstr req.method),
        ("path", TVal.vstr req.url.path)])]
    let tdFields := match ctx with
      | some c => tdFields ++ [("context", TVal.vobj c)]
      | none => tdFields
    let (values2, trace) :=
      qm.transforms.foldl (queryTransformStep E (TVal.vobj tdFields)) (values, [])
    let newURL : URL := { req.url with rawQuery := Values.encode values2 }
    ⟨{ req with url := newURL, requestURI := URL.requestURI newURL }, none, trace⟩

/-! ## header.go: `HeaderModifier` -/

/-- `HeaderModifier` keeps the templates compiled once at configuration
time, alongside the original template strings. -/
structure HeaderModifier where
  templates : List (String × CompiledTemplate)
  templateStrings : List (String × String)

/-- The compile loop body of `NewHeaderModifier`: skip empty template
strings; parse the rest with the `[[ ]]` delimiters and, notably, no
`Funcs` call; a parse failure is logged and the entry skipped. -/
def headerCompileStep (E : Engine) (acc : HeaderModifier × List CompiledTemplate)
    (p : String × String) : HeaderModifier × List CompiledTemplate :=
  let (hm, tr) := acc
  if p.2 ≠ "" then
    let tmpl : CompiledTemplate := ⟨"header_" ++ p.1, p.2, "[[", "]]", []⟩
    let tr := tr ++ [tmpl]
    if E.parseOk tmpl then
      ({ templates := hm.templates ++ [(p.1, tmpl)],
         templateStrings := hm.templateStrings ++ [(p.1, p.2)] }, tr)
    else (hm, tr)
  else acc

/-- `NewHeaderModifier`: compile every non-empty header template at
configuration time (no `Funcs` call is made for them); a template that
fails to parse is logged and permanently skipped.  Also returns the
compile operations performed. -/
def NewHeaderModifier (E : Engine) (config : List (String × String)) :
    HeaderModifier × List CompiledTemplate :=
  config.foldl (headerCompileStep E) (⟨[], []⟩, [])

/-- Result of the header stage. -/
structure HeadersOutcome where
  req : Request
  err : Option String

/-- `convertHeaders`: lower-cased keys, first value each. -/
def convertHeaders (h : Header) : List (String × TVal) :=
  h.foldl (fun acc p =>
    match p.2 with
    | [] => acc
    | v :: _ => alistSet acc (asciiLower p.1) (TVal.vstr v)) []

/-- The install loop body of `ModifyHeaders`: Set (replace) when the name
existed in the original snapshot, matched case-insensitively; Add (append)
when it is new. -/
def applyHeaderStep (originalHeaders : List (String × String)) (h : Header)
    (p : String × String) : Header :=
  if originalHeaders.any (fun q => equalFold q.1 p.1) then
    Header.set h p.1 p.2
  else Header.add h p.1 p.2

/-- The snapshot loop of `ModifyHeaders`: first value per name, names with
at least one value only (a Go map, modelled directly since header keys are
unique). -/
def originalHeadersOf (h : Header) : List (String × String) :=
  h.filterMap (fun p =>
    match p.2 with
    | [] => none
    | v :: _ => some (p.1, v))

/-- The template data `ModifyHeaders` builds once per call. -/
def headerTemplateData (req : Request) (ctx : TemplateContext) : TVal :=
  TVal.vobj [
    ("request", TVal.vobj [
      ("headers", TVal.vobj (convertHeaders req.header)),
      ("method", TVal.vstr req.method),
      ("url", TVal.vstr (URL.toStr req.url)),
      ("path", TVal.vstr req.url.path)]),
    ("context", TVal.vobj ctx)]

/-- The render loop body of `ModifyHeaders`: execute one compiled template
(failure is logged and skipped), trim the result, drop it when empty. -/
def hdrRender (E : Engine) (td : TVal) (p : String × CompiledTemplate) :
    Option (String × String) :=
  match E.exec p.2 td with
  | none => none
  | some out =>
    let headerValue := goTrimSpace out
    if headerValue ≠ "" then some (p.1, headerValue) else none

/-- `ModifyHeaders` (header.go): snapshot the original headers, render
every configured template against that one snapshot (failures logged and
skipped, results trimmed, empty results dropped), then install each
result: Set when the name was present case-insensitively in the snapshot,
Add otherwise.  Always returns a nil error. -/
def ModifyHeaders (E : Engine) (hm : HeaderModifier) (req : Request)
    (ctx : TemplateContext) : HeadersOutcome :=
  if hm.templates = [] then ⟨req, none⟩
  else
    let originalHeaders := originalHeadersOf req.header
    let td := headerTemplateData req ctx
    let modifiedHeaders := hm.templates.filterMap (hdrRender E td)
    let newHeader := modifiedHeaders.foldl (applyHeaderStep originalHeaders) req.header
    ⟨{ req with header := newHeader }, none⟩

/-! ## body.go: `BodyModifier`, `ResponseWriter` -/

/-- `BodyModifier`: the raw request template string and the status-keyed
response template strings; both are parsed again per request. -/
structure BodyModifier where
  templateRequest : String
  templateResponse : List (Nat × String)

/-- `NewBodyModifier`. -/
def NewBodyModifier (templateRequest : String)
    (templateResponse : List (Nat × String)) : BodyModifier :=
  ⟨templateRequest, templateResponse⟩

/-- The capturing `ResponseWriter` wrapper: accumulated body bytes and the
last status code set (200 until one is set). -/
structure ResponseWriter where
  body : String
  statusCode : Nat
deriving DecidableEq

/-- `NewResponseWriter`. -/
def NewResponseWriter : ResponseWriter :=
  ⟨"", 200⟩

/-- Capture `Write`: append to the buffer, forward nothing. -/
def ResponseWriter.write (rw : ResponseWriter) (b : String) : ResponseWriter :=
  { rw with body := rw.body ++ b }

/-- Capture `WriteHeader`: record the status code, forward nothing. -/
def ResponseWriter.writeHeader (rw : ResponseWriter) (code : Nat) : ResponseWriter :=
  { rw with statusCode := code }

/-- `GetBody`. -/
def ResponseWriter.GetBody (rw : ResponseWriter) : String :=
  rw.body

/-- `GetStatusCode`. -/
def ResponseWriter.GetStatusCode (rw : ResponseWriter) : Nat :=
  rw.statusCode

/-- The real client-facing response sink: header map, the status actually
sent (the first `WriteHeader` wins; a `Write` first implies 200), and the
bytes written through. -/
structure RespOut where
  headers : Header
  status : Option Nat
  body : String
deriving DecidableEq

/-- A fresh real sink. -/
def RespOut.initial : RespOut :=
  ⟨[], none, ""⟩

/-- `Header().Set` on the real sink. -/
def RespOut.setHeader (w : RespOut) (k v : String) : RespOut :=
  { w with headers := Header.set w.headers k v }

/-- `Header().Del` on the real sink. -/
def RespOut.delHeader (w : RespOut) (k : String) : RespOut :=
  { w with headers := Header.del w.headers k }

/-- `WriteHeader` on the real sink: only the first call takes effect. -/
def RespOut.writeHeader (w : RespOut) (code : Nat) : RespOut :=
  if w.status.isSome then w else { w with status := some code }

/-- `Write` on the real sink: an implicit 200 if no status was set yet. -/
def RespOut.write (w : RespOut) (b : String) : RespOut :=
  let w2 := if w.status.isSome then w else { w with status := some 200 }
  { w2 with body := w2.body ++ b }

/-- Result of the request-body stage: the updated request, the original and
cleaned body bytes the function returns, the returned error, whether
`template.Must` panicked, and the compile operations performed. -/
structure RequestBodyOutcome where
  req : Request
  originalBody : Option String
  modifiedBody : Option String
  err : Option String
  panicked : Bool
  parses : List CompiledTemplate

/-- `ModifyRequestBodyWithContext` (body.go): no-op without a template or a
body; read and JSON-parse the body (empty body leaves the data nil,
malformed JSON is an error); `template.Must(...Parse(...))` the request
template — on this and every request; execute it over
`request.api.body` (+ context); replace every `"<no value>"` by `""`; and
install the cleaned bytes as the new body with a recomputed
Content-Length. -/
def ModifyRequestBodyWithContext (E : Engine) (bm : BodyModifier)
    (req : Request) (ctx : Option TemplateContext) : RequestBodyOutcome :=
  match req.body with
  | none => ⟨req, none, none, none, false, []⟩
  | some body =>
    if bm.templateRequest = "" then ⟨req, none, none, none, false, []⟩
    else
      let parsedBody : Option TVal :=
        if body = "" then some TVal.vnil
        else
          match jsonParse body with
          | some j => some (TVal.vjson j)
          | none => none
      match parsedBody with
      | none => ⟨req, none, none, some "failed to parse request JSON", false, []⟩
      | some requestData =>
        let tmpl : CompiledTemplate := ⟨"request", bm.templateRequest, "[[", "]]", SimpleFuncMap⟩
        if !(E.parseOk tmpl) then ⟨req, none, none, none, true, [tmpl]⟩
        else
          let tdFields := [("request", TVal.vobj [("api", TVal.vobj [("body", requestData)])])]
          let tdFields := match ctx with
            | some c => tdFields ++ [("context", TVal.vobj c)]
            | none => tdFields
          match E.exec tmpl (TVal.vobj tdFields) with
          | none => ⟨req, none, none, some "failed to execute request template", false, [tmpl]⟩
          | some newBody =>
            let cleanedBody := goReplaceAll newBody "\"<no value>\"" "\"\""
            ⟨{ req with
                body := some cleanedBody,
                contentLength := (cleanedBody.utf8ByteSize : Int),
                header := Header.set req.header "Content-Length" (toString cleanedBody.utf8ByteSize) },
              some body, some cleanedBody, none, false, [tmpl]⟩

/-- Result of the response stage. -/
structure ResponseOutcome where
  out : RespOut
  err : Option String
  panicked : Bool
  parses : List CompiledTemplate

/-- Best-effort JSON view of a request body in the response stage: the
parse error of `json.Unmarshal` is discarded, and on a syntax error the
target is left untouched, i.e. nil. -/
def bestEffortJson (b : Option String) : TVal :=
  match b with
  | none => TVal.vnil
  | some s =>
    if s = "" then TVal.vnil
    else
      match jsonParse s with
      | some j => TVal.vjson j
      | none => TVal.vnil

/-- `ModifyResponseWithContext` (body.go): with no response templates, or
none keyed by the captured status code, write the captured body and status
through unchanged.  Otherwise build the template data (original/modified
request bodies best-effort JSON, response body JSON with raw-string
fallback), `template.Must(...Parse(...))` the matched template — on this
and every request — and execute it (failure is a returned error).  If the
raw rendered bytes are not valid JSON they are written as-is with only a
recomputed Content-Length.  If they are, every `"<no value>"` is replaced
by `""`; when the cleaned bytes still parse they are written verbatim,
otherwise the first parse is re-marshalled; either way Content-Length is
recomputed, Content-Type is forced to application/json, and the captured
status code is written. -/
def ModifyResponseWithContext (E : Engine) (bm : BodyModifier) (w : RespOut)
    (captured : ResponseWriter) (originalRequestBody modifiedRequestBody : Option String)
    (ctx : Option TemplateContext) : ResponseOutcome :=
  if bm.templateResponse.isEmpty then
    ⟨(w.writeHeader captured.statusCode).write captured.body, none, false, []⟩
  else
    match List.lookup captured.statusCode bm.templateResponse with
    | none => ⟨(w.writeHeader captured.statusCode).write captured.body, none, false, []⟩
    | some templateStr =>
      let requestDataOriginal := bestEffortJson originalRequestBody
      let requestDataModified := bestEffortJson modifiedRequestBody
      let responseBody := captured.body
      let responseData : TVal :=
        if responseBody = "" then TVal.vnil
        else
          match jsonParse responseBody with
          | some j => TVal.vjson j
          | none => TVal.vstr responseBody
      let tmpl : CompiledTemplate := ⟨"response", templateStr, "[[", "]]", SimpleFuncMap⟩
      if !(E.parseOk tmpl) then ⟨w, none, true, [tmpl]⟩
      else
        let tdFields := [
          ("request", TVal.vobj [
            ("api", TVal.vobj [("body", requestDataOriginal)]),
            ("modified", TVal.vobj [("body", requestDataModified)])]),
          ("response", TVal.vobj [("body", responseData)])]
        let tdFields := match ctx with
          | some c => tdFields ++ [("context", TVal.vobj c)]
          | none => tdFields
        match E.exec tmpl (TVal.vobj tdFields) with
        | none => ⟨w, some "response masking error", false, [tmpl]⟩
        | some rendered =>
          match jsonParse rendered with
          | none =>
            let w2 := ((w.setHeader "Content-Length" (toString rendered.utf8ByteSize)).writeHeader
              captured.statusCode).write rendered
            ⟨w2, none, false, [tmpl]⟩
          | some jsonData =>
            let cleanedJSON := goReplaceAll rendered "\"<no value>\"" "\"\""
            let formattedJSON :=
              match jsonParse cleanedJSON with
              | some _ => cleanedJSON
              | none => jsonMarshal jsonData
            let w2 := (((w.setHeader "Content-Length" (toString formattedJSON.utf8ByteSize)).setHeader
              "Content-Type" "application/json").writeHeader captured.statusCode).write formattedJSON
            ⟨w2, none, false, [tmpl]⟩

/-- `ModifyResponse`: the context-free wrapper. -/
def ModifyResponse (E : Engine) (bm : BodyModifier) (w : RespOut)
    (captured : ResponseWriter) (originalRequestBody modifiedRequestBody : Option String) :
    ResponseOutcome :=
  ModifyResponseWithContext E bm w captured originalRequestBody modifiedRequestBody none

/-! ## modifier.go: configuration, plugin construction, `ServeHTTP` -/

/-- The plugin `Config` (modifier.go): four optional fields. -/
structure Config where
  modifierRequest : String
  modifierResponse : List (Nat × String)
  modifierQuery : Option (List (String × String))
  modifierHeader : List (String × String)

/-- The plugin instance. -/
structure Plugin where
  name : String
  bodyModifier : BodyModifier
  queryModifier : Option QueryModifier
  headerModifier : Option HeaderModifier

/-- `New` (modifier.go): the body modifier is always built; the query and
header modifiers only when configured non-empty.  Returns the instance and
the template-compile operations performed at configuration time. -/
def New (E : Engine) (config : Config) (name : String) :
    Plugin × List CompiledTemplate :=
  let bodyModifier := NewBodyModifier config.modifierRequest config.modifierResponse
  let queryModifier : Option QueryModifier :=
    match config.modifierQuery with
    | some t => if t.isEmpty then none else some (NewQueryModifier t)
    | none => none
  let (headerModifier, tr) :=
    if config.modifierHeader.isEmpty then ((none : Option HeaderModifier), [])
    else
      let (hm, tr) := NewHeaderModifier E config.modifierHeader
      (some hm, tr)
  (⟨name, bodyModifier, queryModifier, headerModifier⟩, tr)

/-- What a downstream handler does to the writer it is given. -/
inductive WriteOp where
  | wh (code : Nat)
  | wr (chunk : String)
deriving DecidableEq

/-- Run downstream writes against the capturing writer. -/
def runCapture (rw : ResponseWriter) : List WriteOp → ResponseWriter
  | [] => rw
  | .wh code :: ops => runCapture (rw.writeHeader code) ops
  | .wr b :: ops => runCapture (rw.write b) ops

/-- Run downstream writes directly against the real sink (the path with no
response masking configured). -/
def runDirect (w : RespOut) : List WriteOp → RespOut
  | [] => w
  | .wh code :: ops => runDirect (w.writeHeader code) ops
  | .wr b :: ops => runDirect (w.write b) ops

/-- The text a downstream handler wrote, in order. -/
def writtenText : List WriteOp → String
  | [] => ""
  | .wh _ :: ops => writtenText ops
  | .wr b :: ops => b ++ writtenText ops

/-- Model of `http.Error`: plain-text content type, nosniff, the status
code, and the message with a trailing newline. -/
def httpError (w : RespOut) (msg : String) (code : Nat) : RespOut :=
  let w := RespOut.delHeader w "Content-Length"
  let w := RespOut.setHeader w "Content-Type" "text/plain; charset=utf-8"
  let w := RespOut.setHeader w "X-Content-Type-Options" "nosniff"
  (w.writeHeader code).write (msg ++ "\n")

/-- Result of one `ServeHTTP` pass: the real sink, whether and with which
request the downstream handler was invoked, whether a `template.Must`
panic aborted the pass, and every template-compile operation performed
during the request. -/
structure ServeOutcome where
  out : RespOut
  calledNext : Bool
  forwardedReq : Option Request
  panicked : Bool
  parses : List CompiledTemplate

/-- `ServeHTTP` (modifier.go): rebuild the context with a fresh timestamp,
run header then query modification (their errors only logged), run the
request-body stage (an error aborts with HTTP 400 before the downstream
handler runs), then either capture the downstream response and run the
response stage (an error replaces the response with HTTP 500) or pass the
writer straight through. -/
def ServeHTTP (E : Engine) (m : Plugin) (next : Request → List WriteOp)
    (now : Int) (rw : RespOut) (req : Request) : ServeOutcome :=
  let ctx : TemplateContext := [("unixtime", TVal.vint now)]
  let req1 :=
    match m.headerModifier with
    | some hm => (ModifyHeaders E hm req ctx).req
    | none => req
  let (req2, qtrace) :=
    match m.queryModifier with
    | some qm =>
      let o := ModifyQueryWithContext E qm req1 (some ctx)
      (o.req, o.parses)
    | none => (req1, [])
  let o := ModifyRequestBodyWithContext E m.bodyModifier req2 (some ctx)
  let trace := qtrace ++ o.parses
  if o.panicked then ⟨rw, false, none, true, trace⟩
  else
    match o.err with
    | some e =>
      ⟨httpError rw ("Request masking error: " ++ e) 400, false, none, false, trace⟩
    | none =>
      let req3 := o.req
      if m.bodyModifier.templateResponse.isEmpty then
        ⟨runDirect rw (next req3), true, some req3, false, trace⟩
      else
        let captured := runCapture NewResponseWriter (next req3)
        let r := ModifyResponseWithContext E m.bodyModifier rw captured
          o.originalBody o.modifiedBody (some ctx)
        let trace := trace ++ r.parses
        if r.panicked then ⟨rw, true, some req3, true, trace⟩
        else
          match r.err with
          | some e => ⟨httpError r.out e 500, true, some req3, false, trace⟩
          | none => ⟨r.out, true, some req3, false, trace⟩

/-! ## Helper lemmas: association lists -/

theorem map_overwrite_id {α : Type} (t : List (String × α)) (k : String) (v : α)
    (ht : (t.any fun q => q.1 == k) = false) :
    t.map (fun q => if q.1 == k then (k, v) else q) = t := by
  induction t with
  | nil => rfl
  | cons q s ih =>
    simp only [List.any_cons, Bool.or_eq_false_iff] at ht
    have hq : q.1 ≠ k := by simpa using ht.1
    have ih2 := ih ht.2
    simp only [beq_iff_eq] at ih2
    simp [hq, ih2]

theorem lookup_alistSet {α : Type} (l : List (String × α)) (k k2 : String) (v : α) :
    List.lookup k2 (alistSet l k v) = if k2 = k then some v else List.lookup k2 l := by
  induction l with
  | nil =>
    by_cases h : k2 = k
    · simp [alistSet, List.lookup_cons, h]
    · simp [alistSet, List.lookup_cons, h, show (k2 == k) = false by simpa using h]
  | cons p t ih =>
    rcases p with ⟨pk, pv⟩
    by_cases hA : (pk == k) = true
    · have hpk : pk = k := by simpa using hA
      have h3 : alistSet ((pk, pv) :: t) k v =
          (k, v) :: t.map (fun q => if q.1 == k then (k, v) else q) := by
        simp [alistSet, List.any_cons, hA, hpk]
      rw [h3]
      by_cases h : k2 = k
      · simp [List.lookup_cons, h]
      · have hk2 : (k2 == k) = false := by simpa using h
        have hk2pk : (k2 == pk) = false := by
          simp only [beq_eq_false_iff_ne, ne_eq]
          intro hh
          exact h (hh.trans hpk)
        rw [List.lookup_cons, hk2, if_neg h, List.lookup_cons, hk2pk]
        by_cases hB : (t.any fun q => q.1 == k) = true
        · have h2 : alistSet t k v = t.map (fun q => if q.1 == k then (k, v) else q) := by
            unfold alistSet
            rw [hB]
            simp
          rw [← h2, ih, if_neg h]
        · rw [map_overwrite_id t k v ((Bool.not_eq_true _).mp hB)]
    · have hpkne : pk ≠ k := by simpa using hA
      have hAf : (pk == k) = false := by simpa using hpkne
      have hsplit : List.lookup k2 ((pk, pv) :: t) =
          (match k2 == pk with | true => some pv | false => List.lookup k2 t) :=
        List.lookup_cons
      by_cases hB : (t.any fun q => q.1 == k) = true
      · have h2 : alistSet t k v = t.map (fun q => if q.1 == k then (k, v) else q) := by
          unfold alistSet
          rw [hB]
          simp
        have h3 : alistSet ((pk, pv) :: t) k v =
            (pk, pv) :: t.map (fun q => if q.1 == k then (k, v) else q) := by
          simp [alistSet, List.any_cons, hAf, hB, hpkne]
        rw [h3, List.lookup_cons, ← h2, hsplit]
        by_cases h : k2 = k
        · have hne : (k2 == pk) = false := by
            simp only [beq_eq_false_iff_ne, ne_eq]
            intro hh
            exact hpkne (hh.symm.trans h)
          rw [hne, ih, if_pos h]
        · cases hcase : (k2 == pk) <;> simp [hcase, ih, h]
      · have h2 : alistSet t k v = t ++ [(k, v)] := by
          have hBf : (t.any fun q => q.1 == k) = false := (Bool.not_eq_true _).mp hB
          unfold alistSet
          rw [hBf]
          simp
        have h3 : alistSet ((pk, pv) :: t) k v = (pk, pv) :: (t ++ [(k, v)]) := by
          have hBf : (t.any fun q => q.1 == k) = false := (Bool.not_eq_true _).mp hB
          simp [alistSet, List.any_cons, hAf, hBf]
        rw [h3, List.lookup_cons, ← h2, hsplit]
        by_cases h : k2 = k
        · have hne : (k2 == pk) = false := by
            simp only [beq_eq_false_iff_ne, ne_eq]
            intro hh
            exact hpkne (hh.symm.trans h)
          rw [hne, ih, if_pos h]
        · cases hcase : (k2 == pk) <;> simp [hcase, ih, h]

theorem lookup_alistSet_self {α : Type} (l : List (String × α)) (k : String) (v : α) :
    List.lookup k (alistSet l k v) = some v := by
  rw [lookup_alistSet, if_pos rfl]

theorem lookup_alistSet_ne {α : Type} (l : List (String × α)) (k k2 : String) (v : α)
    (h : k2 ≠ k) : List.lookup k2 (alistSet l k v) = List.lookup k2 l := by
  rw [lookup_alistSet, if_neg h]

/-! ## Helper lemmas: header mutation -/

theorem lookup_Header_set (h : Header) (k K v : String) :
    List.lookup K (Header.set h k v) =
      if K = canonicalMIMEHeaderKey k then some [v] else List.lookup K h :=
  lookup_alistSet h (canonicalMIMEHeaderKey k) K [v]

theorem lookup_Header_add (h : Header) (k K v : String) :
    List.lookup K (Header.add h k v) =
      if K = canonicalMIMEHeaderKey k then
        some ((List.lookup (canonicalMIMEHeaderKey k) h).getD [] ++ [v])
      else List.lookup K h :=
  lookup_alistSet h (canonicalMIMEHeaderKey k) K _

theorem lookup_applyHeaderStep_ne (orig : List (String × String)) (h : Header)
    (p : String × String) (K : String) (hne : canonicalMIMEHeaderKey p.1 ≠ K) :
    List.lookup K (applyHeaderStep orig h p) = List.lookup K h := by
  unfold applyHeaderStep
  split
  · rw [lookup_Header_set, if_neg (fun hh => hne hh.symm)]
  · rw [lookup_Header_add, if_neg (fun hh => hne hh.symm)]

theorem lookup_foldl_apply_ne (orig : List (String × String))
    (l : List (String × String)) (h : Header) (K : String)
    (hl : ∀ p ∈ l, canonicalMIMEHeaderKey p.1 ≠ K) :
    List.lookup K (l.foldl (applyHeaderStep orig) h) = List.lookup K h := by
  induction l generalizing h with
  | nil => rfl
  | cons p t ih =>
    rw [List.foldl_cons, ih _ (fun q hq => hl q (List.mem_cons_of_mem p hq)),
      lookup_applyHeaderStep_ne orig h p K (hl p (List.mem_cons_self p t))]

/-! ## Helper lemmas: header-key canonicalization -/

theorem canonStep_congr (u : Bool) (x y : Nat) (h : foldN x = foldN y) :
    canonStep u x = canonStep u y := by
  have hx : x = y ∨ (65 ≤ x ∧ x ≤ 90 ∧ y = x + 32) ∨ (65 ≤ y ∧ y ≤ 90 ∧ x = y + 32) := by
    unfold foldN at h
    split_ifs at h <;> omega
  cases u <;> simp only [canonStep] <;> split_ifs <;> omega

theorem validTokenNat_congr (x y : Nat) (h : foldN x = foldN y) :
    validTokenNat x = validTokenNat y := by
  simp only [validTokenNat, decide_eq_decide]
  simp only [foldN] at h
  split_ifs at h <;> omega

theorem canonNats_congr : ∀ (as bs : List Nat), as.map foldN = bs.map foldN →
    ∀ u, canonNats u as = canonNats u bs := by
  intro as
  induction as with
  | nil =>
    intro bs h u
    cases bs with
    | nil => rfl
    | cons b s => simp at h
  | cons a t ih =>
    intro bs h u
    cases bs with
    | nil => simp at h
    | cons b s =>
      simp only [List.map_cons, List.cons.injEq] at h
      have hstep := canonStep_congr u a b h.1
      simp only [canonNats, hstep]
      rw [ih s h.2]

theorem all_validTokenNat_congr : ∀ (as bs : List Nat), as.map foldN = bs.map foldN →
    as.all validTokenNat = bs.all validTokenNat := by
  intro as
  induction as with
  | nil =>
    intro bs h
    cases bs with
    | nil => rfl
    | cons b s => simp at h
  | cons a t ih =>
    intro bs h
    cases bs with
    | nil => simp at h
    | cons b s =>
      simp only [List.map_cons, List.cons.injEq] at h
      simp only [List.all_cons, validTokenNat_congr a b h.1, ih s h.2]

/-- Under case folding, a valid canonical key determines the canonical form
of every name that compares equal to it case-insensitively: installing a
header under such a name targets exactly the existing entry. -/
theorem canon_eq_of_equalFold (k n : String)
    (hval : (k.toList.map Char.toNat).all validTokenNat = true)
    (hcan : canonicalMIMEHeaderKey k = k)
    (hf : equalFold k n = true) :
    canonicalMIMEHeaderKey n = k := by
  have hlists : k.toList.map (fun c => foldN c.toNat) =
      n.toList.map (fun c => foldN c.toNat) := by
    simpa [equalFold] using hf
  have hlists2 : (k.toList.map Char.toNat).map foldN =
      (n.toList.map Char.toNat).map foldN := by
    simpa [List.map_map, Function.comp] using hlists
  have hvaln : (n.toList.map Char.toNat).all validTokenNat = true := by
    rw [← all_validTokenNat_congr _ _ hlists2]
    exact hval
  have hc : canonNats true (n.toList.map Char.toNat) =
      canonNats true (k.toList.map Char.toNat) :=
    canonNats_congr _ _ hlists2.symm _
  have hk2 : String.mk ((canonNats true (k.toList.map Char.toNat)).map Char.ofNat) = k := by
    have h2 := hcan
    unfold canonicalMIMEHeaderKey at h2
    rwa [if_pos hval] at h2
  unfold canonicalMIMEHeaderKey
  rw [if_pos hvaln, hc, hk2]

/-! ## Helper lemmas: the sort inside `Values.encode` and `json.Marshal` -/

theorem charListLe_total : ∀ as bs : List Char,
    charListLe as bs = true ∨ charListLe bs as = true := by
  intro as
  induction as with
  | nil => intro bs; left; rfl
  | cons a t ih =>
    intro bs
    cases bs with
    | nil => right; rfl
    | cons b s =>
      by_cases hab : a = b
      · subst hab
        rcases ih s with h | h
        · left; simpa [charListLe] using h
        · right; simpa [charListLe] using h
      · rcases lt_or_gt_of_ne hab with hlt | hgt
        · left; simp [charListLe, hab, hlt]
        · right; simp [charListLe, Ne.symm hab, hgt]

theorem charListLe_trans : ∀ as bs cs : List Char,
    charListLe as bs = true → charListLe bs cs = true → charListLe as cs = true := by
  intro as
  induction as with
  | nil => intro bs cs _ _; rfl
  | cons a t ih =>
    intro bs cs h1 h2
    cases bs with
    | nil => simp [charListLe] at h1
    | cons b s =>
      cases cs with
      | nil => simp [charListLe] at h2
      | cons c u =>
        by_cases hab : a = b <;> by_cases hbc : b = c
        · subst hab; subst hbc
          simp only [charListLe, beq_self_eq_true] at h1 h2 ⊢
          exact ih s u h1 h2
        · subst hab
          have hbc2 : a < c := by
            simpa [charListLe, hbc] using h2
          simp [charListLe, hbc, hbc2]
        · subst hbc
          have hab2 : a < b := by
            simpa [charListLe, hab] using h1
          simp [charListLe, hab, hab2]
        · have hab2 : a < b := by
            simpa [charListLe, hab] using h1
          have hbc2 : b < c := by
            simpa [charListLe, hbc] using h2
          have hac : a < c := lt_trans hab2 hbc2
          simp [charListLe, ne_of_lt hac, hac]

theorem strLe_total (a b : String) : strLe a b = true ∨ strLe b a = true :=
  charListLe_total a.toList b.toList

theorem strLe_trans (a b c : String) (h1 : strLe a b = true) (h2 : strLe b c = true) :
    strLe a c = true :=
  charListLe_trans a.toList b.toList c.toList h1 h2

theorem pairwise_insertByKey {α : Type} (p : String × α) (l : List (String × α))
    (hl : l.Pairwise (fun x y => strLe x.1 y.1 = true)) :
    (insertByKey p l).Pairwise (fun x y => strLe x.1 y.1 = true) := by
  induction l with
  | nil => simp [insertByKey]
  | cons q t ih =>
    rw [List.pairwise_cons] at hl
    by_cases h : strLe p.1 q.1 = true
    · rw [insertByKey, if_pos h, List.pairwise_cons]
      refine ⟨?_, List.pairwise_cons.mpr hl⟩
      intro x hx
      rcases List.mem_cons.mp hx with hx | hx
      · subst hx; exact h
      · exact strLe_trans _ _ _ h (hl.1 x hx)
    · have hqp : strLe q.1 p.1 = true := by
        rcases strLe_total p.1 q.1 with hh | hh
        · exact absurd hh h
        · exact hh
      rw [insertByKey, if_neg h, List.pairwise_cons]
      refine ⟨?_, ih hl.2⟩
      intro x hx
      have hmem : x = p ∨ x ∈ t := by
        clear ih hl
        induction t with
        | nil => simpa [insertByKey] using hx
        | cons r u ihu =>
          rw [insertByKey] at hx
          split at hx
          · rcases List.mem_cons.mp hx with hh | hh
            · exact .inl hh
            · exact .inr hh
          · rcases List.mem_cons.mp hx with hh | hh
            · exact .inr (List.mem_cons.mpr (.inl hh))
            · rcases ihu hh with hh2 | hh2
              · exact .inl hh2
              · exact .inr (List.mem_cons.mpr (.inr hh2))
      rcases hmem with hm | hm
      · subst hm; exact hqp
      · exact hl.1 x hm

theorem pairwise_sortByKey {α : Type} (l : List (String × α)) :
    (sortByKey l).Pairwise (fun x y => strLe x.1 y.1 = true) := by
  induction l with
  | nil => simp [sortByKey]
  | cons p t ih => exact pairwise_insertByKey p _ ih

/-! ## Helper lemmas: the response capture -/

theorem runCapture_body (ops : List WriteOp) (rw : ResponseWriter) :
    (runCapture rw ops).body = rw.body ++ writtenText ops := by
  induction ops generalizing rw with
  | nil => simp [runCapture, writtenText]
  | cons op t ih =>
    cases op with
    | wh code =>
      rw [runCapture, ih]
      rfl
    | wr b =>
      rw [runCapture, ih, ResponseWriter.write]
      show rw.body ++ b ++ writtenText t = rw.body ++ writtenText (WriteOp.wr b :: t)
      rw [writtenText, String.append_assoc]

/-! ## The claims -/

/-- C2: for every request in which response templates are configured but
none matches the captured status code (including when none are configured
at all — then the lookup is also `none`), the body bytes and the status
code written to the real client are byte-for-byte what the downstream
handler wrote into the Response Capture. -/
theorem C2_no_matching_template_passthrough
    (E : Engine) (bm : BodyModifier) (w : RespOut) (ops : List WriteOp)
    (ob mb : Option String) (ctx : Option TemplateContext)
    (hnomatch : List.lookup (runCapture NewResponseWriter ops).statusCode
      bm.templateResponse = none)
    (hw : w.status = none) (hwb : w.body = "") :
    (ModifyResponseWithContext E bm w (runCapture NewResponseWriter ops) ob mb ctx).err
      = none ∧
    (ModifyResponseWithContext E bm w (runCapture NewResponseWriter ops) ob mb ctx).out.body
      = writtenText ops ∧
    (ModifyResponseWithContext E bm w (runCapture NewResponseWriter ops) ob mb ctx).out.status
      = some (runCapture NewResponseWriter ops).statusCode ∧
    (ModifyResponseWithContext E bm w (runCapture NewResponseWriter ops) ob mb ctx).out.headers
      = w.headers := by
  have hbody : (runCapture NewResponseWriter ops).body = writtenText ops := by
    rw [runCapture_body]
    rfl
  unfold ModifyResponseWithContext
  rw [hnomatch]
  have hsame : (if bm.templateResponse.isEmpty then
      (⟨(RespOut.write (RespOut.writeHeader w (runCapture NewResponseWriter ops).statusCode)
        (runCapture NewResponseWriter ops).body), none, false, []⟩ : ResponseOutcome)
    else
      (⟨(RespOut.write (RespOut.writeHeader w (runCapture NewResponseWriter ops).statusCode)
        (runCapture NewResponseWriter ops).body), none, false, []⟩ : ResponseOutcome)) =
      (⟨(RespOut.write (RespOut.writeHeader w (runCapture NewResponseWriter ops).statusCode)
        (runCapture NewResponseWriter ops).body), none, false, []⟩ : ResponseOutcome) :=
    ite_self _
  rw [hsame]
  refine ⟨rfl, ?_, ?_, ?_⟩ <;>
    simp [RespOut.write, RespOut.writeHeader, hw, hwb, hbody]

/-- C3: the claim that every configured template is compiled exactly once
at configuration time is contradicted by the code: the request-body (and
likewise response and query) templates are re-parsed inside the
per-request path — here one `Parse` of the request template is recorded by
a single call to `ModifyRequestBodyWithContext` — while plugin
construction records no compile for them at all. -/
theorem C3_body_template_parsed_per_request :
    (ModifyRequestBodyWithContext (constEngine "out") (NewBodyModifier "T" [])
        ⟨"POST", ⟨"/p", ""⟩, "/p", [], 1, some "1"⟩ none).parses
      = [⟨"request", "T", "[[", "]]", SimpleFuncMap⟩] ∧
    (New (constEngine "out")
        ⟨"T", [(200, "R")], some [("k", "v")], []⟩ "m").2 = [] := by
  constructor
  · rfl
  · rfl

/-- C1 (counterexample): a response template rendering the valid JSON text
`[1, 2]` reaches the client exactly as `[1, 2]` with Content-Length 6,
while its minified canonical encoding is `[1,2]` with byte length 5 — the
code does not re-minify. -/
theorem C1_counterexample :
    jsonParse "[1, 2]" = some (Json.arr [Json.num 1 0, Json.num 2 0]) ∧
    jsonMarshal (Json.arr [Json.num 1 0, Json.num 2 0]) = "[1,2]" ∧
    (ModifyResponseWithContext (constEngine "[1, 2]") (NewBodyModifier "" [(200, "t")])
        RespOut.initial ⟨"", 200⟩ none none none).out.body = "[1, 2]" ∧
    Header.get (ModifyResponseWithContext (constEngine "[1, 2]")
        (NewBodyModifier "" [(200, "t")]) RespOut.initial ⟨"", 200⟩ none none
        none).out.headers "Content-Length" = "6" ∧
    ("[1,2]" : String).utf8ByteSize = 5 ∧
    ("[1, 2]" : String) ≠ "[1,2]" ∧ ("6" : String) ≠ "5" := by
  refine ⟨rfl, rfl, rfl, rfl, rfl, by decide, by decide⟩

/-- C5 (counterexample): a response template rendering `[<no value>]` — the
bare missing-value token inside invalid JSON — is written to the client
verbatim, with the token still present: the response stage never strips
the bare form, and strips nothing at all when the raw output is not valid
JSON. -/
theorem C5_counterexample :
    (ModifyResponseWithContext (constEngine "[<no value>]")
        (NewBodyModifier "" [(200, "t")]) RespOut.initial ⟨"", 200⟩ none none
        none).out.body = "[<no value>]" ∧
    containsStr (ModifyResponseWithContext (constEngine "[<no value>]")
        (NewBodyModifier "" [(200, "t")]) RespOut.initial ⟨"", 200⟩ none none
        none).out.body "<no value>" = true := by
  refine ⟨rfl, rfl⟩

theorem ModifyQuery_components (E : Engine) (qm : QueryModifier) (req : Request)
    (ctx : Option TemplateContext) :
    (ModifyQueryWithContext E qm req ctx).err = none ∧
    (ModifyQueryWithContext E qm req ctx).req.method = req.method ∧
    (ModifyQueryWithContext E qm req ctx).req.url.path = req.url.path ∧
    (ModifyQueryWithContext E qm req ctx).req.header = req.header ∧
    (ModifyQueryWithContext E qm req ctx).req.body = req.body ∧
    (ModifyQueryWithContext E qm req ctx).req.contentLength = req.contentLength := by
  unfold ModifyQueryWithContext
  split <;> simp

theorem lookup_eq_none_of_not_has (v : Values) (k : String)
    (h : Values.has v k = false) : List.lookup k v = none := by
  induction v with
  | nil => rfl
  | cons p t ih =>
    unfold Values.has at h ih
    rw [List.any_cons, Bool.or_eq_false_iff] at h
    have hk : (k == p.1) = false := by
      rw [beq_eq_false_iff_ne]
      intro hh
      rw [beq_eq_false_iff_ne] at h
      exact h.1.elim hh.symm
    rcases p with ⟨pk, pv⟩
    rw [List.lookup_cons, hk]
    exact ih h.2

/-- C7: for a configured query key, `ModifyQueryWithContext` renders its
template, removes every occurrence of the literal `<no value>` token from
the rendered text, and — the cleaned result being non-empty — installs it
as the key's sole value (replacing when present, appending when absent,
either way the sole value), leaves every other key's values unchanged,
rebuilds the query string as the sorted-by-key canonical encoding, and
updates the request URI to match. -/
theorem C7_query_transform_installs_cleaned_value
    (E : Engine) (k ts : String) (req : Request) (ctx : Option TemplateContext)
    (r : String)
    (hparseok : ∀ tm, E.parseOk tm = true)
    (hexec : ∀ d, E.exec ⟨"query", ts, "[[", "]]", SimpleFuncMap⟩ d = some r)
    (hclean : goReplaceAll r "<no value>" "" ≠ "") :
    (ModifyQueryWithContext E (NewQueryModifier [(k, ts)]) req ctx).err = none ∧
    ∃ v : Values,
      (ModifyQueryWithContext E (NewQueryModifier [(k, ts)]) req ctx).req.url.rawQuery
        = Values.encode v ∧
      List.lookup k v = some [goReplaceAll r "<no value>" ""] ∧
      (∀ k2, k2 ≠ k → List.lookup k2 v = List.lookup k2 (parseQuery req.url.rawQuery)) ∧
      List.Pairwise (fun a b => strLe a.1 b.1 = true) (sortByKey v) ∧
      (ModifyQueryWithContext E (NewQueryModifier [(k, ts)]) req ctx).req.requestURI
        = URL.requestURI
            (ModifyQueryWithContext E (NewQueryModifier [(k, ts)]) req ctx).req.url := by
  have hne : (NewQueryModifier [(k, ts)]).transforms ≠ [] := by
    intro hx
    simp [NewQueryModifier] at hx
  have hstep : ∀ td, queryTransformStep E td (parseQuery req.url.rawQuery, []) (k, ts) =
      ((if Values.has (parseQuery req.url.rawQuery) k then
          Values.set (parseQuery req.url.rawQuery) k (goReplaceAll r "<no value>" "")
        else Values.add (parseQuery req.url.rawQuery) k (goReplaceAll r "<no value>" "")),
        [⟨"query", ts, "[[", "]]", SimpleFuncMap⟩]) := by
    intro td
    unfold queryTransformStep
    simp [hparseok, hexec, hclean]
  unfold ModifyQueryWithContext
  rw [if_neg hne]
  simp only [NewQueryModifier, List.foldl_cons, List.foldl_nil, hstep]
  refine ⟨by trivial, ?_⟩
  by_cases hhas : Values.has (parseQuery req.url.rawQuery) k
  · simp only [if_pos hhas]
    exact ⟨Values.set (parseQuery req.url.rawQuery) k (goReplaceAll r "<no value>" ""),
      rfl, lookup_alistSet_self _ _ _,
      fun k2 hk2 => lookup_alistSet_ne _ _ _ _ hk2,
      pairwise_sortByKey _, trivial⟩
  · simp only [if_neg hhas]
    refine ⟨Values.add (parseQuery req.url.rawQuery) k (goReplaceAll r "<no value>" ""),
      rfl, ?_,
      fun k2 hk2 => lookup_alistSet_ne _ _ _ _ hk2,
      pairwise_sortByKey _, trivial⟩
    show List.lookup k (alistSet (parseQuery req.url.rawQuery) k _) = _
    rw [lookup_alistSet_self,
      lookup_eq_none_of_not_has _ _ (Bool.eq_false_iff.mpr hhas)]
    rfl

/-- C7 (witness): existing query `b=2&a=1`, template for key `a` rendering
`x<no value>y` — the token is stripped even embedded, and the sole value
of `a` becomes `xy`. -/
theorem C7_query_transform_installs_cleaned_value_witness :
    (ModifyQueryWithContext (constEngine "x<no value>y") (NewQueryModifier [("a", "t")])
      ⟨"GET", ⟨"/p", "b=2&a=1"⟩, "/p?b=2&a=1", [], 0, none⟩ none).err = none ∧
    ∃ v : Values,
      (ModifyQueryWithContext (constEngine "x<no value>y") (NewQueryModifier [("a", "t")])
        ⟨"GET", ⟨"/p", "b=2&a=1"⟩, "/p?b=2&a=1", [], 0, none⟩ none).req.url.rawQuery
        = Values.encode v ∧
      List.lookup "a" v = some [goReplaceAll "x<no value>y" "<no value>" ""] ∧
      (∀ k2, k2 ≠ "a" → List.lookup k2 v = List.lookup k2 (parseQuery "b=2&a=1")) ∧
      List.Pairwise (fun a b => strLe a.1 b.1 = true) (sortByKey v) ∧
      (ModifyQueryWithContext (constEngine "x<no value>y") (NewQueryModifier [("a", "t")])
        ⟨"GET", ⟨"/p", "b=2&a=1"⟩, "/p?b=2&a=1", [], 0, none⟩ none).req.requestURI
        = URL.requestURI
            (ModifyQueryWithContext (constEngine "x<no value>y")
              (NewQueryModifier [("a", "t")])
              ⟨"GET", ⟨"/p", "b=2&a=1"⟩, "/p?b=2&a=1", [], 0, none⟩ none).req.url :=
  C7_query_transform_installs_cleaned_value (constEngine "x<no value>y") "a" "t"
    ⟨"GET", ⟨"/p", "b=2&a=1"⟩, "/p?b=2&a=1", [], 0, none⟩ none "x<no value>y"
    (fun _ => rfl) (fun _ => rfl) (by decide)

/-- C10: `ModifyQueryWithContext` always returns a nil error (even when
every template fails), leaves method, path, headers, body, and
content length untouched, and unconditionally replaces the raw query with
a sorted canonical re-encoding while synchronizing the request URI — so
the byte form can change even when no template contributes, as the
concrete reordering of `b=2&a=1` under an engine whose parses all fail
shows. -/
theorem C10_query_modifies_only_rawquery_and_uri
    (E : Engine) (qm : QueryModifier) (req : Request) (ctx : Option TemplateContext)
    (hne : qm.transforms ≠ []) :
    ((ModifyQueryWithContext E qm req ctx).err = none ∧
     (ModifyQueryWithContext E qm req ctx).req.method = req.method ∧
     (ModifyQueryWithContext E qm req ctx).req.url.path = req.url.path ∧
     (ModifyQueryWithContext E qm req ctx).req.header = req.header ∧
     (ModifyQueryWithContext E qm req ctx).req.body = req.body ∧
     (ModifyQueryWithContext E qm req ctx).req.contentLength = req.contentLength) ∧
    (∃ v : Values,
      (ModifyQueryWithContext E qm req ctx).req.url.rawQuery = Values.encode v ∧
      List.Pairwise (fun a b => strLe a.1 b.1 = true) (sortByKey v) ∧
      (ModifyQueryWithContext E qm req ctx).req.requestURI
        = URL.requestURI (ModifyQueryWithContext E qm req ctx).req.url) ∧
    ((ModifyQueryWithContext noParseEngine (NewQueryModifier [("q", "t")])
        ⟨"GET", ⟨"/p", "b=2&a=1"⟩, "/p?b=2&a=1", [], 0, none⟩ none).req.url.rawQuery
      = "a=1&b=2" ∧ ("a=1&b=2" : String) ≠ "b=2&a=1") := by
  refine ⟨ModifyQuery_components E qm req ctx, ?_, by decide, by decide⟩
  unfold ModifyQueryWithContext
  rw [if_neg hne]
  exact ⟨(qm.transforms.foldl (queryTransformStep E _) (parseQuery req.url.rawQuery, [])).1,
    rfl, pairwise_sortByKey _, rfl⟩

/-- C10 (witness): the theorem applied at a two-parameter query with a
failing template. -/
theorem C10_query_modifies_only_rawquery_and_uri_witness :
    (ModifyQueryWithContext noParseEngine (NewQueryModifier [("q", "t")])
      ⟨"GET", ⟨"/p", "b=2&a=1"⟩, "/p?b=2&a=1", [], 0, none⟩ none).err = none ∧
    (ModifyQueryWithContext noParseEngine (NewQueryModifier [("q", "t")])
      ⟨"GET", ⟨"/p", "b=2&a=1"⟩, "/p?b=2&a=1", [], 0, none⟩ none).req.header
      = ([] : Header) := by
  have h := C10_query_modifies_only_rawquery_and_uri noParseEngine
    (NewQueryModifier [("q", "t")])
    ⟨"GET", ⟨"/p", "b=2&a=1"⟩, "/p?b=2&a=1", [], 0, none⟩ none (by decide)
  exact ⟨h.1.1, h.1.2.2.2.1⟩

theorem Header_get_set_self (h : Header) (k v : String) :
    Header.get (Header.set h k v) k = v := by
  unfold Header.get Header.set
  rw [lookup_alistSet_self]

theorem Header_get_set_ne (h : Header) (k k2 v : String)
    (hne : canonicalMIMEHeaderKey k2 ≠ canonicalMIMEHeaderKey k) :
    Header.get (Header.set h k v) k2 = Header.get h k2 := by
  unfold Header.get Header.set
  rw [lookup_alistSet_ne _ _ _ _ hne]

/-- C1 (amended): for a captured response whose status code matches a
configured response template and whose raw rendered output parses as JSON,
the quoted-placeholder-cleaned bytes are written to the client verbatim
(minified only insofar as the template output already is), Content-Type is
forced to application/json, Content-Length is the cleaned byte length, and
the captured status code is preserved. -/
theorem C1_cleaned_json_written_verbatim
    (E : Engine) (bm : BodyModifier) (w : RespOut) (cap : ResponseWriter)
    (ob mb : Option String) (ctx : Option TemplateContext)
    (tstr r : String) (j j2 : Json)
    (hlookup : List.lookup cap.statusCode bm.templateResponse = some tstr)
    (hparseok : ∀ tm, E.parseOk tm = true)
    (hexec : ∀ d, E.exec ⟨"response", tstr, "[[", "]]", SimpleFuncMap⟩ d = some r)
    (hraw : jsonParse r = some j)
    (hclean : jsonParse (goReplaceAll r "\"<no value>\"" "\"\"") = some j2)
    (hw : w.status = none) (hwb : w.body = "") :
    (ModifyResponseWithContext E bm w cap ob mb ctx).err = none ∧
    (ModifyResponseWithContext E bm w cap ob mb ctx).out.body
      = goReplaceAll r "\"<no value>\"" "\"\"" ∧
    Header.get (ModifyResponseWithContext E bm w cap ob mb ctx).out.headers "Content-Type"
      = "application/json" ∧
    Header.get (ModifyResponseWithContext E bm w cap ob mb ctx).out.headers "Content-Length"
      = toString (goReplaceAll r "\"<no value>\"" "\"\"").utf8ByteSize ∧
    (ModifyResponseWithContext E bm w cap ob mb ctx).out.status = some cap.statusCode := by
  have hne : bm.templateResponse.isEmpty = false := by
    cases hbm : bm.templateResponse with
    | nil => rw [hbm] at hlookup; simp at hlookup
    | cons a t => rfl
  have hctne : canonicalMIMEHeaderKey "Content-Length" ≠ canonicalMIMEHeaderKey "Content-Type" := by
    decide
  unfold ModifyResponseWithContext
  simp only [hne, Bool.false_eq_true, if_false, hlookup, hparseok, Bool.not_true, hexec,
    hraw, hclean]
  refine ⟨trivial, ?_, ?_, ?_, ?_⟩
  · simp [RespOut.write, RespOut.writeHeader, RespOut.setHeader, hw, hwb]
  · simp only [RespOut.write, RespOut.writeHeader, RespOut.setHeader, hw]
    simp [Header_get_set_self]
  · simp only [RespOut.write, RespOut.writeHeader, RespOut.setHeader, hw]
    simp [Header_get_set_ne _ _ _ _ hctne, Header_get_set_self]
  · simp [RespOut.write, RespOut.writeHeader, RespOut.setHeader, hw]

/-- C1 (witness): the amended theorem applied at the concrete inputs of the
counterexample. -/
theorem C1_cleaned_json_written_verbatim_witness :
    (ModifyResponseWithContext (constEngine "[1, 2]") (NewBodyModifier "" [(200, "t")])
        RespOut.initial ⟨"", 200⟩ none none none).out.body = "[1, 2]" ∧
    Header.get (ModifyResponseWithContext (constEngine "[1, 2]")
        (NewBodyModifier "" [(200, "t")]) RespOut.initial ⟨"", 200⟩ none none
        none).out.headers "Content-Type" = "application/json" := by
  have h := C1_cleaned_json_written_verbatim (constEngine "[1, 2]")
    (NewBodyModifier "" [(200, "t")]) RespOut.initial ⟨"", 200⟩ none none none
    "t" "[1, 2]" (Json.arr [Json.num 1 0, Json.num 2 0])
    (Json.arr [Json.num 1 0, Json.num 2 0])
    rfl (fun _ => rfl) (fun _ => rfl) rfl rfl rfl rfl
  exact ⟨h.2.1, h.2.2.1⟩

/-- C5 (amended): in the response stage only the quoted form
`"<no value>"` is stripped (replaced by `""`), and only when the raw
rendered output parses as JSON; when it does not, the bytes are written
with no stripping at all, and the bare token is never stripped. -/
theorem C5_placeholder_stripping_behaviour
    (E : Engine) (bm : BodyModifier) (w : RespOut) (cap : ResponseWriter)
    (ob mb : Option String) (ctx : Option TemplateContext)
    (tstr r : String)
    (hlookup : List.lookup cap.statusCode bm.templateResponse = some tstr)
    (hparseok : ∀ tm, E.parseOk tm = true)
    (hexec : ∀ d, E.exec ⟨"response", tstr, "[[", "]]", SimpleFuncMap⟩ d = some r)
    (hw : w.status = none) (hwb : w.body = "") :
    (jsonParse r = none →
      (ModifyResponseWithContext E bm w cap ob mb ctx).out.body = r) ∧
    (∀ j j2, jsonParse r = some j →
      jsonParse (goReplaceAll r "\"<no value>\"" "\"\"") = some j2 →
      (ModifyResponseWithContext E bm w cap ob mb ctx).out.body
        = goReplaceAll r "\"<no value>\"" "\"\"") := by
  have hne : bm.templateResponse.isEmpty = false := by
    cases hbm : bm.templateResponse with
    | nil => rw [hbm] at hlookup; simp at hlookup
    | cons a t => rfl
  constructor
  · intro hraw
    unfold ModifyResponseWithContext
    simp only [hne, Bool.false_eq_true, if_false, hlookup, hparseok, Bool.not_true, hexec, hraw]
    simp [RespOut.write, RespOut.writeHeader, RespOut.setHeader, hw, hwb]
  · intro j j2 hraw hclean
    exact (C1_cleaned_json_written_verbatim E bm w cap ob mb ctx tstr r j j2
      hlookup hparseok hexec hraw hclean hw hwb).2.1

/-- C5 (witness): the amended theorem applied at the counterexample input,
non-JSON branch. -/
theorem C5_placeholder_stripping_behaviour_witness :
    (ModifyResponseWithContext (constEngine "[<no value>]")
        (NewBodyModifier "" [(200, "t")]) RespOut.initial ⟨"", 200⟩ none none
        none).out.body = "[<no value>]" := by
  exact (C5_placeholder_stripping_behaviour (constEngine "[<no value>]")
    (NewBodyModifier "" [(200, "t")]) RespOut.initial ⟨"", 200⟩ none none none
    "t" "[<no value>]" rfl (fun _ => rfl) (fun _ => rfl) rfl rfl).1 rfl

/-- C2 (witness): pass-through applied at a concrete downstream handler
writing status 404 and body chunks. -/
theorem C2_no_matching_template_passthrough_witness :
    (ModifyResponseWithContext (constEngine "out") (NewBodyModifier "" [(500, "t")])
        RespOut.initial
        (runCapture NewResponseWriter [WriteOp.wh 404, WriteOp.wr "he", WriteOp.wr "llo"])
        none none none).out.body = "hello" ∧
    (ModifyResponseWithContext (constEngine "out") (NewBodyModifier "" [(500, "t")])
        RespOut.initial
        (runCapture NewResponseWriter [WriteOp.wh 404, WriteOp.wr "he", WriteOp.wr "llo"])
        none none none).out.status = some 404 := by
  have h := C2_no_matching_template_passthrough (constEngine "out")
    (NewBodyModifier "" [(500, "t")]) RespOut.initial
    [WriteOp.wh 404, WriteOp.wr "he", WriteOp.wr "llo"] none none none
    rfl rfl rfl
  exact ⟨h.2.1, h.2.2.1⟩

theorem ModifyHeaders_body (E : Engine) (hm : HeaderModifier) (req : Request)
    (ctx : TemplateContext) : (ModifyHeaders E hm req ctx).req.body = req.body := by
  unfold ModifyHeaders
  split <;> rfl

theorem ModifyRequestBody_badjson (E : Engine) (bm : BodyModifier) (r : Request)
    (ctx : Option TemplateContext) (b : String)
    (ht : bm.templateRequest ≠ "") (hb : r.body = some b) (hne : b ≠ "")
    (hbad : jsonParse b = none) :
    ModifyRequestBodyWithContext E bm r ctx =
      ⟨r, none, none, some "failed to parse request JSON", false, []⟩ := by
  unfold ModifyRequestBodyWithContext
  simp only [hb, ht, if_false, hne, hbad]

theorem httpError_fields (w : RespOut) (msg : String) (code : Nat)
    (hw : w.status = none) :
    (httpError w msg code).status = some code ∧
    (httpError w msg code).body = w.body ++ (msg ++ "\n") := by
  unfold httpError RespOut.setHeader RespOut.delHeader RespOut.writeHeader RespOut.write
  simp [hw]

/-- C6: a non-empty request body that fails to parse as JSON makes
`ModifyRequestBodyWithContext` return an error and `ServeHTTP` abort with
HTTP 400 before invoking the downstream handler; an empty request body is
not an error (its parsed value is left nil, i.e. null). -/
theorem C6_invalid_request_json_aborts_400
    (E : Engine) (m : Plugin) (next : Request → List WriteOp) (now : Int)
    (rw : RespOut) (req : Request) (b : String)
    (htmpl : m.bodyModifier.templateRequest ≠ "")
    (hbody : req.body = some b) (hbne : b ≠ "") (hbad : jsonParse b = none)
    (hrw : rw.status = none) (hrwb : rw.body = "") :
    (ServeHTTP E m next now rw req).calledNext = false ∧
    (ServeHTTP E m next now rw req).forwardedReq = none ∧
    (ServeHTTP E m next now rw req).out.status = some 400 ∧
    (ServeHTTP E m next now rw req).out.body
      = "Request masking error: failed to parse request JSON\n" ∧
    (∀ (E2 : Engine) (req2 : Request) (ctx : Option TemplateContext) (out : String),
      req2.body = some "" → (∀ tm, E2.parseOk tm = true) →
      (∀ tm d, E2.exec tm d = some out) →
      (ModifyRequestBodyWithContext E2 m.bodyModifier req2 ctx).err = none) := by
  have hb1 : ∀ (r1 : Request), r1.body = some b →
      ModifyRequestBodyWithContext E m.bodyModifier r1
          (some [("unixtime", TVal.vint now)]) =
        ⟨r1, none, none, some "failed to parse request JSON", false, []⟩ :=
    fun r1 h1 => ModifyRequestBody_badjson E m.bodyModifier r1 _ b htmpl h1 hbne hbad
  have herr := httpError_fields rw "Request masking error: failed to parse request JSON" 400 hrw
  have hempty : ∀ (E2 : Engine) (req2 : Request) (ctx : Option TemplateContext) (out : String),
      req2.body = some "" → (∀ tm, E2.parseOk tm = true) →
      (∀ tm d, E2.exec tm d = some out) →
      (ModifyRequestBodyWithContext E2 m.bodyModifier req2 ctx).err = none := by
    intro E2 req2 ctx out h1 h2 h3
    unfold ModifyRequestBodyWithContext
    by_cases ht2 : m.bodyModifier.templateRequest = ""
    · simp [h1, ht2]
    · simp only [h1, ht2, if_false, if_pos rfl, h2, Bool.not_true, Bool.false_eq_true, h3]
      cases ctx <;> simp [h3]
  have hb400 : (httpError rw ("Request masking error: " ++ "failed to parse request JSON")
      400).body = "Request masking error: failed to parse request JSON\n" := by
    rw [(httpError_fields rw _ 400 hrw).2, hrwb]
    decide
  have herr2 := (httpError_fields rw
    ("Request masking error: " ++ "failed to parse request JSON") 400 hrw).1
  rcases hhm : m.headerModifier with _ | hm <;> rcases hqm : m.queryModifier with _ | qm
  · unfold ServeHTTP
    rw [hhm, hqm]
    simp only []
    rw [hb1 req hbody]
    exact ⟨rfl, rfl, herr2, hb400, hempty⟩
  · unfold ServeHTTP
    rw [hhm, hqm]
    simp only []
    rw [hb1 _ ((ModifyQuery_components E qm req _).2.2.2.2.1.trans hbody)]
    exact ⟨rfl, rfl, herr2, hb400, hempty⟩
  · unfold ServeHTTP
    rw [hhm, hqm]
    simp only []
    rw [hb1 _ ((ModifyHeaders_body E hm req _).trans hbody)]
    exact ⟨rfl, rfl, herr2, hb400, hempty⟩
  · unfold ServeHTTP
    rw [hhm, hqm]
    simp only []
    rw [hb1 _ ((ModifyQuery_components E qm _ _).2.2.2.2.1.trans
      ((ModifyHeaders_body E hm req _).trans hbody))]
    exact ⟨rfl, rfl, herr2, hb400, hempty⟩

/-- C6 (witness): a request carrying the non-JSON body `not json` through
a plugin with a request template is answered 400 without reaching the
downstream handler. -/
theorem C6_invalid_request_json_aborts_400_witness :
    (ServeHTTP (constEngine "out") ⟨"m", NewBodyModifier "T" [], none, none⟩
      (fun _ => [WriteOp.wr "downstream"]) 5 RespOut.initial
      ⟨"POST", ⟨"/p", ""⟩, "/p", [], 8, some "not json"⟩).calledNext = false ∧
    (ServeHTTP (constEngine "out") ⟨"m", NewBodyModifier "T" [], none, none⟩
      (fun _ => [WriteOp.wr "downstream"]) 5 RespOut.initial
      ⟨"POST", ⟨"/p", ""⟩, "/p", [], 8, some "not json"⟩).out.status = some 400 ∧
    (ServeHTTP (constEngine "out") ⟨"m", NewBodyModifier "T" [], none, none⟩
      (fun _ => [WriteOp.wr "downstream"]) 5 RespOut.initial
      ⟨"POST", ⟨"/p", ""⟩, "/p", [], 8, some "not json"⟩).out.body
      = "Request masking error: failed to parse request JSON\n" := by
  have h := C6_invalid_request_json_aborts_400 (constEngine "out")
    ⟨"m", NewBodyModifier "T" [], none, none⟩ (fun _ => [WriteOp.wr "downstream"]) 5
    RespOut.initial ⟨"POST", ⟨"/p", ""⟩, "/p", [], 8, some "not json"⟩ "not json"
    (by decide) rfl (by decide) rfl rfl rfl
  exact ⟨h.1, h.2.2.1, h.2.2.2.1⟩

theorem hdrRender_fst (E : Engine) (td : TVal) (q : String × CompiledTemplate)
    (p : String × String) (h : hdrRender E td q = some p) : p.1 = q.1 := by
  unfold hdrRender at h
  rcases hE : E.exec q.2 td with _ | out
  · rw [hE] at h
    simp at h
  · rw [hE] at h
    simp only [] at h
    split at h
    · simp only [Option.some.injEq] at h
      rw [← h]
    · simp at h

theorem hdrRender_some (E : Engine) (td : TVal) (n : String) (t : CompiledTemplate)
    (r : String) (hexec : E.exec t td = some r) (htrim : goTrimSpace r ≠ "") :
    hdrRender E td (n, t) = some (n, goTrimSpace r) := by
  unfold hdrRender
  rw [hexec]
  simp [htrim]

theorem hdrRender_none (E : Engine) (td : TVal) (n : String) (t : CompiledTemplate)
    (r : String) (hexec : E.exec t td = some r) (htrim : goTrimSpace r = "") :
    hdrRender E td (n, t) = none := by
  unfold hdrRender
  rw [hexec]
  simp [htrim]

theorem ModifyHeaders_err (E : Engine) (hm : HeaderModifier) (req : Request)
    (ctx : TemplateContext) : (ModifyHeaders E hm req ctx).err = none := by
  unfold ModifyHeaders
  split <;> rfl

theorem ModifyHeaders_header (E : Engine) (hm : HeaderModifier) (req : Request)
    (ctx : TemplateContext) (hne : hm.templates ≠ []) :
    (ModifyHeaders E hm req ctx).req.header =
      List.foldl (applyHeaderStep (originalHeadersOf req.header)) req.header
        (List.filterMap (hdrRender E (headerTemplateData req ctx)) hm.templates) := by
  unfold ModifyHeaders
  rw [if_neg hne]

theorem mem_originalHeadersOf (h : Header) (k v : String) (vs : List String)
    (hmem : (k, v :: vs) ∈ h) : (k, v) ∈ originalHeadersOf h := by
  unfold originalHeadersOf
  rw [List.mem_filterMap]
  exact ⟨(k, v :: vs), hmem, rfl⟩

theorem originalHeadersOf_src (h : Header) (q : String × String)
    (hmem : q ∈ originalHeadersOf h) :
    ∃ vs, (q.1, q.2 :: vs) ∈ h := by
  unfold originalHeadersOf at hmem
  rw [List.mem_filterMap] at hmem
  rcases hmem with ⟨p, hp, hpq⟩
  rcases p with ⟨pk, pvs⟩
  cases pvs with
  | nil => simp at hpq
  | cons w ws =>
    simp only [Option.some.injEq] at hpq
    rw [← hpq]
    exact ⟨ws, hp⟩

/-- C4: for a configured header template that renders a non-empty (trimmed)
result, under well-formed headers and configuration with pairwise distinct
canonical template names: if a header of that name was present
case-insensitively with a value, the canonical entry afterwards holds
exactly the rendered text as its single value (and every matching original
name is that canonical key, so no stray duplicate survives); if it was
absent, the rendered text is appended as the new sole value; entries whose
canonical key no template targets are untouched. -/
theorem C4_header_set_or_add
    (E : Engine) (hm : HeaderModifier) (req : Request) (ctx : TemplateContext)
    (n : String) (t : CompiledTemplate) (r : String)
    (hmem : (n, t) ∈ hm.templates)
    (hdistinct : (hm.templates.map Prod.fst).Pairwise
      (fun a b => canonicalMIMEHeaderKey a ≠ canonicalMIMEHeaderKey b))
    (hexec : ∀ d, E.exec t d = some r)
    (htrim : goTrimSpace r ≠ "")
    (hwf : ∀ p ∈ req.header, (p.1.toList.map Char.toNat).all validTokenNat = true ∧
      canonicalMIMEHeaderKey p.1 = p.1) :
    (ModifyHeaders E hm req ctx).err = none ∧
    ((∃ p ∈ req.header, equalFold p.1 n = true ∧ p.2 ≠ []) →
      List.lookup (canonicalMIMEHeaderKey n) (ModifyHeaders E hm req ctx).req.header
        = some [goTrimSpace r] ∧
      ∀ p ∈ req.header, equalFold p.1 n = true → p.1 = canonicalMIMEHeaderKey n) ∧
    ((∀ p ∈ req.header, p.2 = [] ∨ equalFold p.1 n = false) →
      (List.lookup (canonicalMIMEHeaderKey n) req.header = none ∨
       List.lookup (canonicalMIMEHeaderKey n) req.header = some []) →
      List.lookup (canonicalMIMEHeaderKey n) (ModifyHeaders E hm req ctx).req.header
        = some [goTrimSpace r]) ∧
    (∀ K, (∀ q ∈ hm.templates, canonicalMIMEHeaderKey q.1 ≠ K) →
      List.lookup K (ModifyHeaders E hm req ctx).req.header
        = List.lookup K req.header) := by
  have hnonempty : hm.templates ≠ [] := by
    intro hnil
    rw [hnil] at hmem
    exact List.not_mem_nil _ hmem
  have hh := ModifyHeaders_header E hm req ctx hnonempty
  rcases List.append_of_mem hmem with ⟨T1, T2, hT⟩
  have hothers : ∀ p ∈ (T1.filterMap (hdrRender E (headerTemplateData req ctx)) ++
      T2.filterMap (hdrRender E (headerTemplateData req ctx))),
      canonicalMIMEHeaderKey p.1 ≠ canonicalMIMEHeaderKey n := by
    intro p hp
    have hnames : p.1 ∈ T1.map Prod.fst ∨ p.1 ∈ T2.map Prod.fst := by
      rcases List.mem_append.mp hp with hp1 | hp2
      · rcases List.mem_filterMap.mp hp1 with ⟨q, hq, hqr⟩
        left
        rw [hdrRender_fst E _ q p hqr]
        exact List.mem_map_of_mem Prod.fst hq
      · rcases List.mem_filterMap.mp hp2 with ⟨q, hq, hqr⟩
        right
        rw [hdrRender_fst E _ q p hqr]
        exact List.mem_map_of_mem Prod.fst hq
    have hmap : (hm.templates.map Prod.fst) =
        T1.map Prod.fst ++ n :: T2.map Prod.fst := by
      rw [hT]
      simp
    rw [hmap] at hdistinct
    rcases List.pairwise_append.mp hdistinct with ⟨_, hp2, hcross⟩
    rcases hnames with h1 | h1
    · exact hcross p.1 h1 n (List.mem_cons_self _ _)
    · have h2 := (List.pairwise_cons.mp hp2).1 p.1 h1
      exact fun hcontra => h2 hcontra.symm
  have hdecomp : hm.templates.filterMap (hdrRender E (headerTemplateData req ctx)) =
      T1.filterMap (hdrRender E (headerTemplateData req ctx)) ++
        (n, goTrimSpace r) :: T2.filterMap (hdrRender E (headerTemplateData req ctx)) := by
    rw [hT, List.filterMap_append, List.filterMap_cons,
      hdrRender_some E _ n t r (hexec _) htrim]
  have hfold1 :
      List.lookup (canonicalMIMEHeaderKey n)
        ((T1.filterMap (hdrRender E (headerTemplateData req ctx))).foldl
          (applyHeaderStep (originalHeadersOf req.header)) req.header)
      = List.lookup (canonicalMIMEHeaderKey n) req.header :=
    lookup_foldl_apply_ne _ _ _ _
      (fun p hp => hothers p (List.mem_append.mpr (.inl hp)))
  have hfold :
      List.lookup (canonicalMIMEHeaderKey n) (ModifyHeaders E hm req ctx).req.header
      = List.lookup (canonicalMIMEHeaderKey n)
          (applyHeaderStep (originalHeadersOf req.header)
            ((T1.filterMap (hdrRender E (headerTemplateData req ctx))).foldl
              (applyHeaderStep (originalHeadersOf req.header)) req.header)
            (n, goTrimSpace r)) := by
    rw [hh, hdecomp, List.foldl_append, List.foldl_cons]
    exact lookup_foldl_apply_ne _ _ _ _
      (fun p hp => hothers p (List.mem_append.mpr (.inr hp)))
  refine ⟨ModifyHeaders_err E hm req ctx, ?_, ?_, ?_⟩
  · rintro ⟨p, hpmem, hpf, hpne⟩
    have hcanon : ∀ p2 ∈ req.header, equalFold p2.1 n = true →
        p2.1 = canonicalMIMEHeaderKey n := by
      intro p2 hp2 hf2
      exact (canon_eq_of_equalFold p2.1 n (hwf p2 hp2).1 (hwf p2 hp2).2 hf2).symm
    refine ⟨?_, hcanon⟩
    rw [hfold]
    have hany : (originalHeadersOf req.header).any (fun q => equalFold q.1 n) = true := by
      rcases p with ⟨pk, pvs⟩
      cases pvs with
      | nil => exact absurd rfl hpne
      | cons w ws =>
        rw [List.any_eq_true]
        exact ⟨(pk, w), mem_originalHeadersOf req.header pk w ws hpmem, hpf⟩
    simp only [applyHeaderStep]
    rw [if_pos hany, lookup_Header_set, if_pos rfl]
  · intro habsent hatkey
    rw [hfold]
    have hany : (originalHeadersOf req.header).any (fun q => equalFold q.1 n) = false := by
      rw [Bool.eq_false_iff]
      intro hx
      rw [List.any_eq_true] at hx
      rcases hx with ⟨q, hqmem, hqf⟩
      rcases originalHeadersOf_src req.header q hqmem with ⟨vs, hsrc⟩
      rcases habsent (q.1, q.2 :: vs) hsrc with hcontra | hcontra
      · simp at hcontra
      · simp only [] at hcontra
        rw [hqf] at hcontra
        exact Bool.true_eq_false.mp hcontra
    simp only [applyHeaderStep]
    rw [if_neg (by rw [hany]; exact fun hcontra => Bool.false_ne_true hcontra),
      lookup_Header_add, if_pos rfl, hfold1]
    rcases hatkey with hk | hk <;> rw [hk] <;> rfl
  · intro K hK
    rw [hh]
    refine lookup_foldl_apply_ne _ _ _ _ ?_
    intro p hp
    rcases List.mem_filterMap.mp hp with ⟨q, hq, hqr⟩
    rw [hdrRender_fst E _ q p hqr]
    exact hK q hq

/-- C4 (witness): a concrete present-case replacement — original
`Authorization: Bearer old`, template rendering ` Bearer new ` — leaves a
single Authorization value `Bearer new`. -/
theorem C4_header_set_or_add_witness :
    List.lookup (canonicalMIMEHeaderKey "Authorization")
      (ModifyHeaders (constEngine " Bearer new ")
        ⟨[("Authorization", ⟨"header_Authorization", "tpl", "[[", "]]", []⟩)],
         [("Authorization", "tpl")]⟩
        ⟨"GET", ⟨"/p", ""⟩, "/p", [("Authorization", ["Bearer old"]), ("X-Other", ["v"])], 0, none⟩
        []).req.header = some ["Bearer new"] := by
  have h := C4_header_set_or_add (constEngine " Bearer new ")
    ⟨[("Authorization", ⟨"header_Authorization", "tpl", "[[", "]]", []⟩)],
     [("Authorization", "tpl")]⟩
    ⟨"GET", ⟨"/p", ""⟩, "/p", [("Authorization", ["Bearer old"]), ("X-Other", ["v"])], 0, none⟩
    [] "Authorization" ⟨"header_Authorization", "tpl", "[[", "]]", []⟩ " Bearer new "
    (by decide) (by decide) (fun _ => rfl) (by decide) (by decide)
  exact (h.2.1 ⟨("Authorization", ["Bearer old"]), by decide, by decide, by decide⟩).1

/-- C8 (counterexample): a header template for `X-Test` rendering
whitespace (trimmed to empty) writes nothing — but the request already
carried `X-Test: bar`, which survives untouched, so the resulting request
does carry such a header, contradicting the claim as stated. -/
theorem C8_counterexample :
    (ModifyHeaders (constEngine "  ")
        ⟨[("X-Test", ⟨"header_X-Test", "tpl", "[[", "]]", []⟩)], [("X-Test", "tpl")]⟩
        ⟨"GET", ⟨"/p", ""⟩, "/p", [("X-Test", ["bar"])], 0, none⟩ []).req.header
      = [("X-Test", ["bar"])] ∧
    List.lookup "X-Test"
      (ModifyHeaders (constEngine "  ")
        ⟨[("X-Test", ⟨"header_X-Test", "tpl", "[[", "]]", []⟩)], [("X-Test", "tpl")]⟩
        ⟨"GET", ⟨"/p", ""⟩, "/p", [("X-Test", ["bar"])], 0, none⟩ []).req.header
      = some ["bar"] := by
  exact ⟨rfl, rfl⟩

/-- C8 (amended): for a configured header template whose result trims to
the empty string, `ModifyHeaders` writes no header for that name: the
header entry at that canonical name is exactly what the request already
carried — in particular, a request that carried no such header still
carries none (a pre-existing header of that name, however, survives). -/
theorem C8_empty_render_writes_nothing
    (E : Engine) (hm : HeaderModifier) (req : Request) (ctx : TemplateContext)
    (n : String) (t : CompiledTemplate) (r : String)
    (hmem : (n, t) ∈ hm.templates)
    (hdistinct : (hm.templates.map Prod.fst).Pairwise
      (fun a b => canonicalMIMEHeaderKey a ≠ canonicalMIMEHeaderKey b))
    (hexec : ∀ d, E.exec t d = some r)
    (htrim : goTrimSpace r = "") :
    (ModifyHeaders E hm req ctx).err = none ∧
    List.lookup (canonicalMIMEHeaderKey n) (ModifyHeaders E hm req ctx).req.header
      = List.lookup (canonicalMIMEHeaderKey n) req.header := by
  have hnonempty : hm.templates ≠ [] := by
    intro hnil
    rw [hnil] at hmem
    exact List.not_mem_nil _ hmem
  have hh := ModifyHeaders_header E hm req ctx hnonempty
  rcases List.append_of_mem hmem with ⟨T1, T2, hT⟩
  have hothers : ∀ p ∈ (T1.filterMap (hdrRender E (headerTemplateData req ctx)) ++
      T2.filterMap (hdrRender E (headerTemplateData req ctx))),
      canonicalMIMEHeaderKey p.1 ≠ canonicalMIMEHeaderKey n := by
    intro p hp
    have hnames : p.1 ∈ T1.map Prod.fst ∨ p.1 ∈ T2.map Prod.fst := by
      rcases List.mem_append.mp hp with hp1 | hp2
      · rcases List.mem_filterMap.mp hp1 with ⟨q, hq, hqr⟩
        left
        rw [hdrRender_fst E _ q p hqr]
        exact List.mem_map_of_mem Prod.fst hq
      · rcases List.mem_filterMap.mp hp2 with ⟨q, hq, hqr⟩
        right
        rw [hdrRender_fst E _ q p hqr]
        exact List.mem_map_of_mem Prod.fst hq
    have hmap : (hm.templates.map Prod.fst) =
        T1.map Prod.fst ++ n :: T2.map Prod.fst := by
      rw [hT]
      simp
    rw [hmap] at hdistinct
    rcases List.pairwise_append.mp hdistinct with ⟨_, hp2, hcross⟩
    rcases hnames with h1 | h1
    · exact hcross p.1 h1 n (List.mem_cons_self _ _)
    · have h2 := (List.pairwise_cons.mp hp2).1 p.1 h1
      exact fun hcontra => h2 hcontra.symm
  have hdecomp : hm.templates.filterMap (hdrRender E (headerTemplateData req ctx)) =
      T1.filterMap (hdrRender E (headerTemplateData req ctx)) ++
        T2.filterMap (hdrRender E (headerTemplateData req ctx)) := by
    rw [hT, List.filterMap_append, List.filterMap_cons,
      hdrRender_none E _ n t r (hexec _) htrim]
  refine ⟨ModifyHeaders_err E hm req ctx, ?_⟩
  rw [hh, hdecomp, List.foldl_append,
    lookup_foldl_apply_ne _ _ _ _
      (fun p hp => hothers p (List.mem_append.mpr (.inr hp))),
    lookup_foldl_apply_ne _ _ _ _
      (fun p hp => hothers p (List.mem_append.mpr (.inl hp)))]

/-- C8 (witness): the amended theorem at the counterexample input — the
pre-existing `X-Test: bar` entry is exactly preserved. -/
theorem C8_empty_render_writes_nothing_witness :
    List.lookup (canonicalMIMEHeaderKey "X-Test")
      (ModifyHeaders (constEngine "  ")
        ⟨[("X-Test", ⟨"header_X-Test", "tpl", "[[", "]]", []⟩)], [("X-Test", "tpl")]⟩
        ⟨"GET", ⟨"/p", ""⟩, "/p", [("X-Test", ["bar"])], 0, none⟩ []).req.header
      = some ["bar"] := by
  have h := C8_empty_render_writes_nothing (constEngine "  ")
    ⟨[("X-Test", ⟨"header_X-Test", "tpl", "[[", "]]", []⟩)], [("X-Test", "tpl")]⟩
    ⟨"GET", ⟨"/p", ""⟩, "/p", [("X-Test", ["bar"])], 0, none⟩ []
    "X-Test" ⟨"header_X-Test", "tpl", "[[", "]]", []⟩ "  "
    (by decide) (by decide) (fun _ => rfl) (by decide)
  exact h.2.trans (by decide)

/-- C9 (counterexample): `NewHeaderModifier` compiles header templates with
no attached function map — the Function Library (non-empty, containing
`toJSON` among others) is not injected into them. -/
theorem C9_counterexample :
    ((NewHeaderModifier (constEngine "out") [("X-Test", "tpl")]).1.templates.map
      (fun p => p.2.funcs)) = [[]] ∧
    SimpleFuncMap ≠ [] ∧ "toJSON" ∈ SimpleFuncMap := by
  refine ⟨rfl, by decide, by decide⟩

theorem queryTransformStep_parses (E : Engine) (td : TVal)
    (acc : Values × List CompiledTemplate) (p : String × String) :
    (queryTransformStep E td acc p).2 =
      acc.2 ++ [⟨"query", p.2, "[[", "]]", SimpleFuncMap⟩] := by
  unfold queryTransformStep
  rcases acc with ⟨vs, tr⟩
  simp only []
  split
  · rfl
  · rcases hE : E.exec ⟨"query", p.2, "[[", "]]", SimpleFuncMap⟩ td with _ | out
    · rfl
    · simp only []
      split <;> rfl

theorem query_foldl_parses (E : Engine) (td : TVal) :
    ∀ (l : List (String × String)) (acc : Values × List CompiledTemplate),
    (∀ tm ∈ acc.2, tm.funcs = SimpleFuncMap) →
    ∀ tm ∈ (l.foldl (queryTransformStep E td) acc).2, tm.funcs = SimpleFuncMap := by
  intro l
  induction l with
  | nil => exact fun acc h tm hm => h tm hm
  | cons p t ih =>
    intro acc h tm hmem
    refine ih _ ?_ tm hmem
    intro tm2 hm2
    rw [queryTransformStep_parses] at hm2
    rcases List.mem_append.mp hm2 with h1 | h1
    · exact h tm2 h1
    · rw [List.mem_singleton.mp h1]

theorem headerCompileStep_funcs (E : Engine) (acc : HeaderModifier × List CompiledTemplate)
    (p : String × String) (h : ∀ q ∈ acc.1.templates, q.2.funcs = ([] : List String)) :
    ∀ q ∈ (headerCompileStep E acc p).1.templates, q.2.funcs = ([] : List String) := by
  unfold headerCompileStep
  rcases acc with ⟨hm, tr⟩
  simp only []
  split
  · split
    · intro q hq
      rcases List.mem_append.mp hq with h1 | h1
      · exact h q h1
      · rw [List.mem_singleton.mp h1]
    · exact h
  · exact h

/-- C9 (amended): the Function Library is attached (via `Funcs`) to every
template the body-request, body-response, and query stages compile, but to
none of the header templates compiled by `NewHeaderModifier`. -/
theorem C9_function_library_injection
    (E : Engine) (bm : BodyModifier) (req req2 : Request) (w : RespOut)
    (cap : ResponseWriter) (ob mb : Option String)
    (ctx ctx2 : Option TemplateContext) (qm : QueryModifier)
    (cfg : List (String × String)) :
    (∀ tm ∈ (ModifyRequestBodyWithContext E bm req ctx).parses,
      tm.funcs = SimpleFuncMap) ∧
    (∀ tm ∈ (ModifyResponseWithContext E bm w cap ob mb ctx).parses,
      tm.funcs = SimpleFuncMap) ∧
    (∀ tm ∈ (ModifyQueryWithContext E qm req2 ctx2).parses,
      tm.funcs = SimpleFuncMap) ∧
    (∀ p ∈ (NewHeaderModifier E cfg).1.templates, p.2.funcs = ([] : List String)) := by
  have hreqp : (ModifyRequestBodyWithContext E bm req ctx).parses = [] ∨
      (ModifyRequestBodyWithContext E bm req ctx).parses =
        [⟨"request", bm.templateRequest, "[[", "]]", SimpleFuncMap⟩] := by
    unfold ModifyRequestBodyWithContext
    dsimp only
    repeat' split
    all_goals first
      | (left; rfl)
      | (right; rfl)
  have hrespp : (ModifyResponseWithContext E bm w cap ob mb ctx).parses = [] ∨
      ∃ tstr, (ModifyResponseWithContext E bm w cap ob mb ctx).parses =
        [⟨"response", tstr, "[[", "]]", SimpleFuncMap⟩] := by
    unfold ModifyResponseWithContext
    dsimp only
    repeat' split
    all_goals first
      | (left; rfl)
      | (right; exact ⟨_, rfl⟩)
  refine ⟨?_, ?_, ?_, ?_⟩
  · intro tm hmem
    rcases hreqp with hp | hp <;> rw [hp] at hmem
    · simp at hmem
    · rw [List.mem_singleton.mp hmem]
  · intro tm hmem
    rcases hrespp with hp | ⟨tstr, hp⟩ <;> rw [hp] at hmem
    · simp at hmem
    · rw [List.mem_singleton.mp hmem]
  · intro tm hmem
    unfold ModifyQueryWithContext at hmem
    split at hmem
    · simp at hmem
    · exact query_foldl_parses E _ qm.transforms _ (by intro tm2 h2; simp at h2) tm hmem
  · have hstep : ∀ (cfg2 : List (String × String))
        (acc : HeaderModifier × List CompiledTemplate),
        (∀ q ∈ acc.1.templates, q.2.funcs = ([] : List String)) →
        ∀ q ∈ (cfg2.foldl (headerCompileStep E) acc).1.templates,
          q.2.funcs = ([] : List String) := by
      intro cfg2
      induction cfg2 with
      | nil => exact fun acc h q hq => h q hq
      | cons p t ih =>
        intro acc h q hq
        exact ih _ (headerCompileStep_funcs E acc p h) q hq
    exact hstep cfg (⟨[], []⟩, []) (by intro q hq; simp at hq)

/-- C9 (witness): a concrete per-request body-template compile carries the
Function Library, exhibited through the amended theorem. -/
theorem C9_function_library_injection_witness :
    ∃ tm, tm ∈ (ModifyRequestBodyWithContext (constEngine "out") (NewBodyModifier "T" [])
        ⟨"POST", ⟨"/p", ""⟩, "/p", [], 1, some "1"⟩ none).parses ∧
      tm.funcs = SimpleFuncMap := by
  refine ⟨⟨"request", "T", "[[", "]]", SimpleFuncMap⟩, ?_, ?_⟩
  · show (⟨"request", "T", "[[", "]]", SimpleFuncMap⟩ : CompiledTemplate) ∈
      [(⟨"request", "T", "[[", "]]", SimpleFuncMap⟩ : CompiledTemplate)]
    exact List.mem_singleton.mpr rfl
  · exact (C9_function_library_injection (constEngine "out") (NewBodyModifier "T" [])
      ⟨"POST", ⟨"/p", ""⟩, "/p", [], 1, some "1"⟩ ⟨"GET", ⟨"/q", ""⟩, "/q", [], 0, none⟩
      RespOut.initial ⟨"", 200⟩ none none none none ⟨[]⟩ []).1
      ⟨"request", "T", "[[", "]]", SimpleFuncMap⟩
      (by
        show (⟨"request", "T", "[[", "]]", SimpleFuncMap⟩ : CompiledTemplate) ∈
          [(⟨"request", "T", "[[", "]]", SimpleFuncMap⟩ : CompiledTemplate)]
        exact List.mem_singleton.mpr rfl)

end TraefikModifier
